import Mathlib

/-!
Shallow embedding of the core logic of `streamlit_excel_merge_app.py`
(Covercy Excel Merge Tool): the template scanner, the entity matcher,
the duplicate resolver, the grid writer (complete flow) and the block
appender (incomplete flow).

Conventions of the embedding:
* A spreadsheet is a `Grid`: a total cell function over 0-based physical
  row/column indices together with the pandas shape (`nrows`, `ncols`).
  pandas reads (`df_raw.iat[r, c]`, 0-based) access `g.cell r c` directly;
  openpyxl writes (`ws.cell(row=R, column=C)`, 1-based) update the physical
  cell `(R - 1, C - 1)`.
* Cell values are scalars: empty (pandas `NaN`), text, number, or calendar
  date.  The spreadsheet codec (how xlsx serializes dates, the textual
  date parser, number formatting) is out of scope per the spec; date cells
  carry a `PDate` directly and `parseDate` recognizes exactly those,
  yielding `none` (`NaT`) otherwise, mirroring `errors='coerce'`.
* Python floats are modelled as exact rationals (`ℚ`).
-/

namespace ExcelMerge

/-- Calendar date, mirroring Python `datetime.date`: ordered
lexicographically by (year, month, day). -/
structure PDate where
  year : Nat
  month : Nat
  day : Nat
deriving DecidableEq, Repr

/-- Chronological (lexicographic) order on dates, the order Python uses to
compare and sort `datetime.date` objects. -/
def dateLe (x y : PDate) : Prop :=
  x.year < y.year ∨ (x.year = y.year ∧
    (x.month < y.month ∨ (x.month = y.month ∧ x.day ≤ y.day)))

instance : DecidableRel dateLe := fun x y => by
  unfold dateLe; infer_instance

instance : IsTotal PDate dateLe := ⟨by
  intro x y
  unfold dateLe
  omega⟩

instance : IsTrans PDate dateLe := ⟨by
  intro x y z hxy hyz
  unfold dateLe at *
  omega⟩

/-- A scalar cell value of the spreadsheet grid. -/
inductive Cell where
  | empty
  | str (s : String)
  | num (q : ℚ)
  | date (d : PDate)
deriving DecidableEq, Repr

/-- A spreadsheet sheet as read by `pd.read_excel(..., header=None)`:
a rectangular grid of scalar cells, 0-based physical indices. -/
structure Grid where
  nrows : Nat
  ncols : Nat
  cell : Nat → Nat → Cell

/-- Python `str(...)` on a cell value as pandas hands it over
(line 123 / 127 of the source).  A missing cell is pandas `NaN`, whose
`str` is `"nan"`.  The renderings of numbers and dates stand in for
Python's (they never coincide with the sentinel strings or with each
other); only their exact text is schematic, which no claim depends on. -/
def pyStr : Cell → String
  | .empty => "nan"
  | .str s => s
  | .num q => "num:" ++ toString q.num ++ "/" ++ toString q.den
  | .date d => toString d.year ++ "-" ++ toString d.month ++ "-" ++ toString d.day

/-- Python `.strip()`: drop leading and trailing whitespace characters. -/
def stripChars (l : List Char) : List Char :=
  ((l.dropWhile Char.isWhitespace).reverse.dropWhile Char.isWhitespace).reverse

/-- Python `str.strip()` on a Lean string. -/
def pyStrip (s : String) : String := String.mk (stripChars s.data)

/-- The parsed-date view of a cell: `pd.to_datetime(v, errors='coerce')`.
Date-valued cells parse to themselves; everything else is `NaT` (`none`).
(The flexible textual date parser is the external codec, out of scope.) -/
def parseDate : Cell → Option PDate
  | .date d => some d
  | _ => none

/-- The hardcoded entity column of the target template: `ent_col = 2`
(0-based pandas column 2 = spreadsheet column C). -/
def entColIdx : Nat := 2

/-- First row whose entity-column cell equals the literal string `s`:
`df_raw[df_raw[ent_col] == s].index[0]` (pandas `==` is exact value
equality, no strip/str coercion).  `none` when the positional lookup
`.index[0]` would raise `IndexError`. -/
def findRow (g : Grid) (s : String) : Option Nat :=
  (List.range g.nrows).find? (fun r => g.cell r entColIdx == Cell.str s)

/-- The raw positional-lookup failure (`IndexError` from `.index[0]`)
that escapes when a sentinel label is absent; nothing in the source
catches it or rephrases it. -/
inductive ScanErr where
  | noInvestingEntity
  | noGP
deriving DecidableEq, Repr

/-- Result of scanning the target layout (source lines 118–129). -/
structure ScanInfo where
  entLabelRow : Nat
  gpRow : Nat
  entRows : List Nat
  targetEntities : List String
  dateCols : List Nat
  dateMap : List (Nat × Option PDate)
deriving Repr

/-- Template Scanner, lines 118–129 of the source:
`ent_label_row` = first row with `'Investing Entity'` in column 2,
`gp_row` = first row with `'GP'` in column 2 (anywhere in the column),
`ent_rows = range(ent_label_row+1, gp_row)`,
`target_entities = [str(cell).strip() ...]`,
`date_label_row = ent_label_row - 2`,
`date_cols` = columns whose `str(cell).strip()` equals `'Last Day'` in
that row, and `date_map[j]` = parsed date one row below the header. -/
def scanTarget (g : Grid) : Except ScanErr ScanInfo :=
  match findRow g "Investing Entity" with
  | none => .error .noInvestingEntity
  | some ie =>
    match findRow g "GP" with
    | none => .error .noGP
    | some gp =>
      let entRows := List.range' (ie + 1) (gp - (ie + 1))
      let dlr := ie - 2
      let dateCols := (List.range g.ncols).filter
        (fun j => pyStrip (pyStr (g.cell dlr j)) == "Last Day")
      .ok { entLabelRow := ie
            gpRow := gp
            entRows := entRows
            targetEntities := entRows.map (fun r => pyStrip (pyStr (g.cell r entColIdx)))
            dateCols := dateCols
            dateMap := dateCols.map (fun j => (j, parseDate (g.cell (dlr + 1) j))) }

/-- One row of the source table after column selection and date parsing:
entity text, `parsed_date` (`none` = unparseable, `NaT`), amount. -/
structure SrcRow where
  entity : String
  pdate : Option PDate
  amount : ℚ
deriving DecidableEq, Repr

/-- One openpyxl write `ws.cell(row=w.1, column=w.2.1).value = w.2.2`
applied to the physical grid (openpyxl is 1-based, the grid 0-based). -/
def applyOp (g : Grid) (w : Nat × Nat × Cell) : Grid :=
  { g with cell := fun r c => if w.1 - 1 = r ∧ w.2.1 - 1 = c then w.2.2 else g.cell r c }

/-- Apply a sequence of openpyxl writes in program order (later wins). -/
def applyOps (g : Grid) (ws : List (Nat × Nat × Cell)) : Grid :=
  ws.foldl applyOp g

/-- The rows of the source table matching one (target entity, date) pair:
`df_source[(df_source['mapped_entity']==ent)&(df_source['parsed_date']==dist_date)]`
(line 194), in original row order. -/
def matchingRows (rows : List SrcRow) (mapping : String → String)
    (ent : String) (d : PDate) : List SrcRow :=
  rows.filter (fun row => mapping row.entity == ent && row.pdate == some d)

/-- The write issued for one (entity row, date column) iteration of the
write-back loop (lines 191–197): skip `NaT` columns, skip unmatched
pairs, otherwise write `chosen.get((ent, d), m[src_amt].iloc[0])` at
`ws.cell(row=r+1, column=col_idx)`. -/
def pairWrite (rows : List SrcRow) (mapping : String → String)
    (chosen : String → PDate → Option ℚ) (r : Nat) (ent : String) :
    Nat × Option PDate → Option (Nat × Nat × Cell)
  | (_, none) => none
  | (j, some d) =>
    match matchingRows rows mapping ent d with
    | [] => none
    | m0 :: _ => some (r + 1, j, Cell.num ((chosen ent d).getD m0.amount))

/-- All writes of the complete-flow write-back, in loop order
(entity rows outer, date columns inner). -/
def writebackOps (info : ScanInfo) (rows : List SrcRow) (mapping : String → String)
    (chosen : String → PDate → Option ℚ) : List (Nat × Nat × Cell) :=
  (info.entRows.zip info.targetEntities).flatMap
    (fun re => info.dateMap.filterMap (pairWrite rows mapping chosen re.1 re.2))

/-- The unmatched list accumulated by the write-back loop (line 199):
pairs with a real date but no matching source row. -/
def unmatchedPairs (info : ScanInfo) (rows : List SrcRow)
    (mapping : String → String) : List (String × PDate) :=
  (info.entRows.zip info.targetEntities).flatMap
    (fun re => info.dateMap.filterMap (fun jd =>
      match jd.2 with
      | none => none
      | some d =>
        if matchingRows rows mapping re.2 d = [] then some (re.2, d) else none))

/-- The target workbook after the complete-flow write-back. -/
def writebackGrid (g : Grid) (info : ScanInfo) (rows : List SrcRow)
    (mapping : String → String) (chosen : String → PDate → Option ℚ) : Grid :=
  applyOps g (writebackOps info rows mapping chosen)

/-- The date values of the scanned date axis (`set(date_map.values())`,
line 151), `NaT` entries included. -/
def validDates (info : ScanInfo) : List (Option PDate) :=
  info.dateMap.map (·.2)

/-- `dup_src` (lines 152–155): source rows whose mapped entity is
non-empty and whose parsed date occurs among the date-axis values. -/
def dupSource (rows : List SrcRow) (mapping : String → String)
    (info : ScanInfo) : List SrcRow :=
  rows.filter (fun row => mapping row.entity != "" && (validDates info).contains row.pdate)

/-- The amount list of the `(mapped_entity, parsed_date)` group keyed by
`(ent, d)` in `dup_groups` (lines 156–158), in source-row order. -/
def groupAmounts (info : ScanInfo) (rows : List SrcRow)
    (mapping : String → String) (ent : String) (d : PDate) : List ℚ :=
  ((dupSource rows mapping info).filter
    (fun row => mapping row.entity == ent && row.pdate == some d)).map (·.amount)

/-- A user's resolution for one duplicate group: the default `'SUM'`
radio selection, or one specific amount picked from the group. -/
inductive DupChoice where
  | sumAll
  | pick (a : ℚ)

/-- The `chosen` dictionary (lines 160–182): an entry exists exactly for
duplicate groups (more than one amount); its value is the group sum for
`'SUM'` or the picked amount. -/
def chosenOf (info : ScanInfo) (rows : List SrcRow) (mapping : String → String)
    (choice : String → PDate → DupChoice) : String → PDate → Option ℚ :=
  fun ent d =>
    let amts := groupAmounts info rows mapping ent d
    if amts.length > 1 then
      some (match choice ent d with
            | .sumAll => amts.sum
            | .pick a => a)
    else none

/-- Reading a cell after a sequence of openpyxl writes: the last write
targeting this physical cell wins; absent any, the original value shows. -/
theorem applyOps_cell (g : Grid) (ws : List (Nat × Nat × Cell)) (r c : Nat) :
    (applyOps g ws).cell r c =
      ((ws.filter (fun w => w.1 - 1 == r && w.2.1 - 1 == c)).getLast?).elim
        (g.cell r c) (fun w => w.2.2) := by
  induction ws generalizing g with
  | nil => simp [applyOps]
  | cons w ws ih =>
    have hstep : applyOps g (w :: ws) = applyOps (applyOp g w) ws := rfl
    rw [hstep, ih]
    by_cases hw : w.1 - 1 = r ∧ w.2.1 - 1 = c
    · have hfilter :
          (w :: ws).filter (fun w => w.1 - 1 == r && w.2.1 - 1 == c) =
            w :: ws.filter (fun w => w.1 - 1 == r && w.2.1 - 1 == c) := by
        simp [List.filter_cons, hw.1, hw.2]
      rw [hfilter]
      cases hws : ws.filter (fun w => w.1 - 1 == r && w.2.1 - 1 == c) with
      | nil => simp [applyOp, hw.1, hw.2]
      | cons x xs =>
        cases hxl : (x :: xs).getLast? with
        | none => simp [List.getLast?_eq_none_iff] at hxl
        | some y => simp [hxl]
    · have hfilter :
          (w :: ws).filter (fun w => w.1 - 1 == r && w.2.1 - 1 == c) =
            ws.filter (fun w => w.1 - 1 == r && w.2.1 - 1 == c) := by
        rw [List.filter_cons]
        simp only [Bool.and_eq_true, beq_iff_eq]
        rw [if_neg]
        intro hcon
        exact hw ⟨hcon.1, hcon.2⟩
      rw [hfilter]
      have hcell : (applyOp g w).cell r c = g.cell r c := by
        simp only [applyOp]
        rw [if_neg hw]
      rw [hcell]

end ExcelMerge

namespace ExcelMerge

/-- Characterization of `find?` over `List.range`: it returns exactly the
least index below `n` satisfying `p`. -/
theorem find?_range_eq_some {p : Nat → Bool} :
    ∀ {n i : Nat}, (List.range n).find? p = some i ↔
      i < n ∧ p i = true ∧ ∀ j, j < i → p j = false := by
  intro n
  induction n with
  | zero => intro i; simp
  | succ n ih =>
    intro i
    rw [List.range_succ, List.find?_append]
    cases h : (List.range n).find? p with
    | some k =>
      have hk := (ih (i := k)).mp h
      simp only [Option.or, Option.some.injEq]
      constructor
      · rintro rfl
        exact ⟨Nat.lt_succ_of_lt hk.1, hk.2.1, hk.2.2⟩
      · rintro ⟨hi, hpi, hmin⟩
        rcases Nat.lt_trichotomy i k with hlt | heq | hgt
        · have := hk.2.2 i hlt
          rw [this] at hpi
          cases hpi
        · exact heq.symm
        · have := hmin k hgt
          rw [this] at hk
          exact absurd hk.2.1 (by simp)
    | none =>
      have hnone := List.find?_eq_none.mp h
      simp only [Option.or, List.find?]
      by_cases hp : p n
      · simp only [hp, Option.some.injEq]
        constructor
        · rintro rfl
          refine ⟨Nat.lt_succ_self n, hp, ?_⟩
          intro j hj
          have := hnone j (List.mem_range.mpr hj)
          simpa using this
        · rintro ⟨hi, hpi, _hmin⟩
          rcases Nat.lt_succ_iff_lt_or_eq.mp hi with hlt | heq
          · exact absurd hpi (by simpa using hnone i (List.mem_range.mpr hlt))
          · omega
      · have hp' : p n = false := by simpa using hp
        simp only [hp']
        constructor
        · intro hcon; cases hcon
        · rintro ⟨hi, hpi, _⟩
          rcases Nat.lt_succ_iff_lt_or_eq.mp hi with hlt | heq
          · exact absurd hpi (by simpa using hnone i (List.mem_range.mpr hlt))
          · rw [heq] at hpi; rw [hpi] at hp'; cases hp'

/-- `findRow` finds exactly the first row carrying the label. -/
theorem findRow_eq_some {g : Grid} {s : String} {i : Nat}
    (h1 : i < g.nrows) (h2 : g.cell i entColIdx = .str s)
    (h3 : ∀ r, r < i → g.cell r entColIdx ≠ .str s) :
    findRow g s = some i := by
  unfold findRow
  rw [find?_range_eq_some]
  refine ⟨h1, by simp [h2], ?_⟩
  intro j hj
  simpa using h3 j hj

/-- `findRow` fails exactly when no row carries the label. -/
theorem findRow_eq_none {g : Grid} {s : String} :
    findRow g s = none ↔ ∀ r, r < g.nrows → g.cell r entColIdx ≠ .str s := by
  unfold findRow
  rw [List.find?_eq_none]
  constructor
  · intro h r hr
    have := h r (List.mem_range.mpr hr)
    simpa using this
  · intro h x hx
    simpa using h x (List.mem_range.mp hx)

/-- C2 (amended) : scanning with both sentinels present (`i0` the first
`'Investing Entity'` row and `g0` the first `'GP'` row anywhere in the
entity column, the label row at least two rows down) succeeds and yields
the entity axis `range(i0+1, g0)` — the rows strictly between the label
row and the first `'GP'` row, empty when that row is not below the label —
whose names are the whitespace-trimmed cell texts in original order, and
a date axis keyed exactly by the columns whose cell two rows above the
label row reads `'Last Day'`, each mapped to the parsed date one row
below that header. -/
theorem claim_C2 (g : Grid) (i0 g0 : Nat)
    (hie1 : i0 < g.nrows) (hie2 : g.cell i0 entColIdx = .str "Investing Entity")
    (hie3 : ∀ r, r < i0 → g.cell r entColIdx ≠ .str "Investing Entity")
    (hgp1 : g0 < g.nrows) (hgp2 : g.cell g0 entColIdx = .str "GP")
    (hgp3 : ∀ r, r < g0 → g.cell r entColIdx ≠ .str "GP")
    (h2 : 2 ≤ i0) :
    ∃ info, scanTarget g = Except.ok info ∧
      info.entRows = List.range' (i0 + 1) (g0 - (i0 + 1)) ∧
      info.entRows.length = g0 - i0 - 1 ∧
      info.targetEntities =
        (List.range' (i0 + 1) (g0 - (i0 + 1))).map
          (fun r => pyStrip (pyStr (g.cell r entColIdx))) ∧
      (∀ j, j ∈ info.dateCols ↔
        j < g.ncols ∧ pyStrip (pyStr (g.cell (i0 - 2) j)) = "Last Day") ∧
      info.dateMap = info.dateCols.map (fun j => (j, parseDate (g.cell (i0 - 1) j))) := by
  have hfie : findRow g "Investing Entity" = some i0 := findRow_eq_some hie1 hie2 hie3
  have hfgp : findRow g "GP" = some g0 := findRow_eq_some hgp1 hgp2 hgp3
  have hok : scanTarget g = Except.ok
      { entLabelRow := i0
        gpRow := g0
        entRows := List.range' (i0 + 1) (g0 - (i0 + 1))
        targetEntities := (List.range' (i0 + 1) (g0 - (i0 + 1))).map
          (fun r => pyStrip (pyStr (g.cell r entColIdx)))
        dateCols := (List.range g.ncols).filter
          (fun j => pyStrip (pyStr (g.cell (i0 - 2) j)) == "Last Day")
        dateMap := ((List.range g.ncols).filter
          (fun j => pyStrip (pyStr (g.cell (i0 - 2) j)) == "Last Day")).map
          (fun j => (j, parseDate (g.cell (i0 - 2 + 1) j))) } := by
    simp [scanTarget, hfie, hfgp]
  refine ⟨_, hok, rfl, ?_, rfl, ?_, ?_⟩
  · simp only [List.length_range']
    omega
  · intro j
    simp only [List.mem_filter, List.mem_range]
    constructor
    · rintro ⟨hj, hlast⟩
      exact ⟨hj, by simpa using hlast⟩
    · rintro ⟨hj, hlast⟩
      exact ⟨hj, by simpa using hlast⟩
  · have h21 : i0 - 2 + 1 = i0 - 1 := by omega
    simp only [h21]


/-- Properties of a successful `findRow` lookup. -/
theorem findRow_some_spec {g : Grid} {s : String} {i : Nat}
    (h : findRow g s = some i) :
    i < g.nrows ∧ g.cell i entColIdx = .str s := by
  unfold findRow at h
  rw [find?_range_eq_some] at h
  exact ⟨h.1, by simpa using h.2.1⟩

/-- Concrete grid refuting C2: in column 2, `'GP'` appears at row 0
(above the `'Investing Entity'` label at row 3) and again at row 5
(below it); row 4 holds entity `'A'`; a `'Last Day'` header sits two
rows above the label with a date below it.  The claim predicts the axis
`['A']` (rows strictly between row 3 and the first `'GP'` strictly
below, row 5); the code takes the first `'GP'` anywhere (row 0) and
produces an empty axis. -/
def gridC2 : Grid where
  nrows := 6
  ncols := 6
  cell := fun r c =>
    if c = 2 then
      (if r = 0 then Cell.str "GP"
       else if r = 3 then Cell.str "Investing Entity"
       else if r = 4 then Cell.str "A"
       else if r = 5 then Cell.str "GP" else Cell.empty)
    else if c = 4 then
      (if r = 1 then Cell.str "Last Day"
       else if r = 2 then Cell.date ⟨2024, 3, 31⟩ else Cell.empty)
    else Cell.empty

/-- C2 counterexample: on `gridC2` (both sentinels present, a
`'Last Day'` header present) the scanned entity axis is empty, not
`['A']` as the claim's "first occurrence of 'GP' strictly below" reading
demands. -/
theorem claim_C2_counterexample :
    (scanTarget gridC2).toOption.map ScanInfo.targetEntities = some [] ∧
    (some ([] : List String)) ≠ some ["A"] := by
  constructor
  · rfl
  · decide

/-- Well-formed concrete grid exercising the amended C2. -/
def gridC2w : Grid where
  nrows := 7
  ncols := 8
  cell := fun r c =>
    if c = 2 then
      (if r = 4 then Cell.str "Investing Entity"
       else if r = 5 then Cell.str " Inv One "
       else if r = 6 then Cell.str "GP" else Cell.empty)
    else if c = 5 then
      (if r = 2 then Cell.str "Last Day"
       else if r = 3 then Cell.date ⟨2024, 3, 31⟩ else Cell.empty)
    else Cell.empty

/-- Witness for the amended C2 at `gridC2w`. -/
theorem claim_C2_witness :
    ∃ info, scanTarget gridC2w = Except.ok info ∧
      info.entRows = List.range' (4 + 1) (6 - (4 + 1)) ∧
      info.entRows.length = 6 - 4 - 1 ∧
      info.targetEntities = (List.range' (4 + 1) (6 - (4 + 1))).map
        (fun r => pyStrip (pyStr (gridC2w.cell r entColIdx))) ∧
      (∀ j, j ∈ info.dateCols ↔ j < gridC2w.ncols ∧
        pyStrip (pyStr (gridC2w.cell (4 - 2) j)) = "Last Day") ∧
      info.dateMap = info.dateCols.map (fun j => (j, parseDate (gridC2w.cell (4 - 1) j))) :=
  claim_C2 gridC2w 4 6 (by decide) (by decide) (by decide)
    (by decide) (by decide) (by decide) (by decide)

/-- Concrete grid with both sentinels but no `'Last Day'` header
anywhere. -/
def gridC3 : Grid where
  nrows := 7
  ncols := 5
  cell := fun r c =>
    if c = 2 then
      (if r = 4 then Cell.str "Investing Entity"
       else if r = 5 then Cell.str "B"
       else if r = 6 then Cell.str "GP" else Cell.empty)
    else Cell.empty

/-- Concrete grid missing the `'GP'` sentinel (with a `'Last Day'`
header present). -/
def gridNoGP : Grid where
  nrows := 7
  ncols := 5
  cell := fun r c =>
    if c = 2 then
      (if r = 4 then Cell.str "Investing Entity"
       else if r = 5 then Cell.str "B" else Cell.empty)
    else if c = 3 then
      (if r = 2 then Cell.str "Last Day"
       else if r = 3 then Cell.date ⟨2024, 1, 15⟩ else Cell.empty)
    else Cell.empty

/-- C3 counterexample: `gridC3` has both sentinels and no `'Last Day'`
header at all, yet scanning succeeds (with an empty date axis) — it does
not fail as the claim's "exactly when ... or when no column carries the
'Last Day' header" requires. -/
theorem claim_C3_counterexample :
    (scanTarget gridC3).isOk = true ∧
    (scanTarget gridC3).toOption.map ScanInfo.dateCols = some [] := by
  constructor
  · rfl
  · rfl

/-- C3 (amended) : scanning fails — with the raw positional-lookup error
(`IndexError` from `.index[0]`), which nothing in the code catches or
rephrases as a friendly "cannot find expected layout" message — exactly
when the `'Investing Entity'` or the `'GP'` sentinel is absent from the
entity column; the absence of every `'Last Day'` header does not cause a
failure (the date axis merely comes out empty).  In particular a grid
missing `'GP'` fails, with the error arising at the `'GP'` lookup. -/
theorem claim_C3 :
    (∀ g : Grid, (scanTarget g).isOk = false ↔
      ((∀ r, r < g.nrows → g.cell r entColIdx ≠ Cell.str "Investing Entity") ∨
       (∀ r, r < g.nrows → g.cell r entColIdx ≠ Cell.str "GP"))) ∧
    (scanTarget gridNoGP).isOk = false ∧
    scanTarget gridNoGP = Except.error ScanErr.noGP := by
  refine ⟨?_, rfl, rfl⟩
  intro g
  cases hfie : findRow g "Investing Entity" with
  | none =>
    have hno := findRow_eq_none.mp hfie
    simp only [scanTarget, hfie]
    constructor
    · intro _
      exact Or.inl hno
    · intro _
      rfl
  | some i =>
    cases hfgp : findRow g "GP" with
    | none =>
      have hno := findRow_eq_none.mp hfgp
      simp only [scanTarget, hfie, hfgp]
      constructor
      · intro _
        exact Or.inr hno
      · intro _
        rfl
    | some k =>
      simp only [scanTarget, hfie, hfgp]
      constructor
      · intro hcon
        cases hcon
      · intro hcon
        rcases hcon with h | h
        · have := findRow_some_spec hfie
          exact absurd this.2 (h i this.1)
        · have := findRow_some_spec hfgp
          exact absurd this.2 (h k this.1)

/-- `map Prod.fst` of a zip keeps `Nodup` of the first list. -/
theorem nodup_map_fst_zip {α β : Type _} :
    ∀ {l1 : List α} {l2 : List β}, l1.Nodup → ((l1.zip l2).map Prod.fst).Nodup := by
  intro l1
  induction l1 with
  | nil => intro l2 _; simp
  | cons a l1 ih =>
    intro l2 h
    cases l2 with
    | nil => simp
    | cons b l2 =>
      simp only [List.zip_cons_cons, List.map_cons, List.nodup_cons]
      refine ⟨?_, ih (List.nodup_cons.mp h).2⟩
      intro hmem
      have ha : a ∈ l1 := by
        rcases List.mem_map.mp hmem with ⟨p, hp, hfst⟩
        have hz := List.of_mem_zip hp
        rw [hfst] at hz
        exact hz.1
      exact (List.nodup_cons.mp h).1 ha

/-- In a list of pairs with no duplicate keys, a key determines its value. -/
theorem eq_snd_of_mem_nodup_fst {α β : Type _} :
    ∀ {l : List (α × β)}, (l.map Prod.fst).Nodup →
      ∀ {a : α} {b1 b2 : β}, (a, b1) ∈ l → (a, b2) ∈ l → b1 = b2 := by
  intro l
  induction l with
  | nil => intro _ a b1 b2 h; cases h
  | cons x l ih =>
    intro hnd a b1 b2 h1 h2
    simp only [List.map_cons, List.nodup_cons] at hnd
    rcases List.mem_cons.mp h1 with he1 | ht1
    · rcases List.mem_cons.mp h2 with he2 | ht2
      · rw [← he1] at he2
        exact congrArg Prod.snd he2.symm
      · exfalso
        apply hnd.1
        rw [← he1]
        exact List.mem_map.mpr ⟨(a, b2), ht2, rfl⟩
    · rcases List.mem_cons.mp h2 with he2 | ht2
      · exfalso
        apply hnd.1
        rw [← he2]
        exact List.mem_map.mpr ⟨(a, b1), ht1, rfl⟩
      · exact ih hnd.2 ht1 ht2

/-- A write issued by `pairWrite` targets openpyxl row `r + 1` and
openpyxl column equal to the date-axis key. -/
theorem pairWrite_spec {rows : List SrcRow} {mapping : String → String}
    {chosen : String → PDate → Option ℚ} {r : Nat} {ent : String}
    {jd : Nat × Option PDate} {w : Nat × Nat × Cell}
    (h : pairWrite rows mapping chosen r ent jd = some w) :
    w.1 = r + 1 ∧ w.2.1 = jd.1 := by
  rcases jd with ⟨j, od⟩
  cases od with
  | none => simp [pairWrite] at h
  | some d =>
    simp only [pairWrite] at h
    cases hm : matchingRows rows mapping ent d with
    | nil =>
      rw [hm] at h
      cases h
    | cons m0 rest =>
      rw [hm] at h
      cases h
      exact ⟨rfl, rfl⟩

/-- The per-pair filter vanishes on a date-map block with keys all
different from `j` (keys and `j` at least 1, so the openpyxl→physical
shift is injective). -/
theorem filterMap_pairWrite_filter_nil {rows : List SrcRow} {mapping : String → String}
    {chosen : String → PDate → Option ℚ} {r' : Nat} {ent' : String}
    {dm : List (Nat × Option PDate)} {r j : Nat}
    (hne : ∀ kd ∈ dm, kd.1 ≠ j ∨ r' ≠ r) (hge : ∀ kd ∈ dm, 1 ≤ kd.1) (hj : 1 ≤ j) :
    (dm.filterMap (pairWrite rows mapping chosen r' ent')).filter
      (fun w => w.1 - 1 == r && w.2.1 - 1 == j - 1) = [] := by
  rw [List.filter_eq_nil_iff]
  intro w hw
  rcases List.mem_filterMap.mp hw with ⟨kd, hkd, hpw⟩
  have hsp := pairWrite_spec hpw
  rcases hne kd hkd with hk | hr
  · have hk1 := hge kd hkd
    simp only [Bool.and_eq_true, beq_iff_eq, not_and]
    intro _
    rw [hsp.2]
    omega
  · simp only [Bool.and_eq_true, beq_iff_eq, not_and]
    intro hcon
    rw [hsp.1] at hcon
    omega

/-- The per-pair filter over a single entity row's date loop extracts
exactly the write of the pair `(j, od)`. -/
theorem filterMap_pairWrite_filter {rows : List SrcRow} {mapping : String → String}
    {chosen : String → PDate → Option ℚ} {dm : List (Nat × Option PDate)}
    {j : Nat} {od : Option PDate}
    (hnd : (dm.map Prod.fst).Nodup) (hge : ∀ kd ∈ dm, 1 ≤ kd.1)
    (hjd : (j, od) ∈ dm) (r : Nat) (ent : String) :
    (dm.filterMap (pairWrite rows mapping chosen r ent)).filter
      (fun w => w.1 - 1 == r && w.2.1 - 1 == j - 1) =
    (pairWrite rows mapping chosen r ent (j, od)).toList := by
  have hj : 1 ≤ j := hge _ hjd
  induction dm with
  | nil => cases hjd
  | cons kd dm ih =>
    simp only [List.map_cons, List.nodup_cons] at hnd
    rcases List.mem_cons.mp hjd with he | ht
    · have hkd : kd = (j, od) := he.symm
      subst hkd
      have htail : ∀ kd ∈ dm, kd.1 ≠ j ∨ r ≠ r := by
        intro kd hkd
        left
        intro hcon
        apply hnd.1
        rw [← hcon]
        exact List.mem_map.mpr ⟨kd, hkd, rfl⟩
      rw [List.filterMap_cons]
      cases hpw : pairWrite rows mapping chosen r ent (j, od) with
      | none =>
        simp only [Option.toList]
        exact filterMap_pairWrite_filter_nil htail (fun kd h => hge kd (List.mem_cons_of_mem _ h)) hj
      | some w =>
        have hsp := pairWrite_spec hpw
        rw [List.filter_cons]
        have hpred : (w.1 - 1 == r && w.2.1 - 1 == j - 1) = true := by
          simp only [Bool.and_eq_true, beq_iff_eq]
          constructor
          · rw [hsp.1]; omega
          · rw [hsp.2]
        rw [if_pos hpred]
        rw [filterMap_pairWrite_filter_nil htail (fun kd h => hge kd (List.mem_cons_of_mem _ h)) hj]
        simp [Option.toList]
    · have hkne : kd.1 ≠ j := by
        intro hcon
        apply hnd.1
        exact List.mem_map.mpr ⟨(j, od), ht, hcon.symm⟩
      rw [List.filterMap_cons]
      cases hpw : pairWrite rows mapping chosen r ent kd with
      | none => exact ih hnd.2 (fun kd h => hge kd (List.mem_cons_of_mem _ h)) ht
      | some w =>
        have hsp := pairWrite_spec hpw
        have hk1 : 1 ≤ kd.1 := hge kd (List.mem_cons_self _ _)
        have hpred : ¬((w.1 - 1 == r && w.2.1 - 1 == j - 1) = true) := by
          simp only [Bool.and_eq_true, beq_iff_eq, not_and]
          intro _
          rw [hsp.2]
          omega
        rw [List.filter_cons, if_neg hpred]
        exact ih hnd.2 (fun kd h => hge kd (List.mem_cons_of_mem _ h)) ht

/-- The per-pair filter vanishes on every entity-row block whose row
differs from `r`. -/
theorem filter_flatMap_ne_rows {rows : List SrcRow} {mapping : String → String}
    {chosen : String → PDate → Option ℚ} {dm : List (Nat × Option PDate)}
    {res : List (Nat × String)} {r j : Nat}
    (hall : ∀ re ∈ res, re.1 ≠ r) :
    ((res.flatMap (fun re => dm.filterMap (pairWrite rows mapping chosen re.1 re.2))).filter
      (fun w => w.1 - 1 == r && w.2.1 - 1 == j - 1)) = [] := by
  rw [List.filter_eq_nil_iff]
  intro w hw
  rcases List.mem_flatMap.mp hw with ⟨re, hre, hwi⟩
  rcases List.mem_filterMap.mp hwi with ⟨kd, _, hpw⟩
  have hsp := pairWrite_spec hpw
  simp only [Bool.and_eq_true, beq_iff_eq, not_and]
  intro hcon
  exfalso
  apply hall re hre
  rw [hsp.1] at hcon
  omega

/-- The writes of the complete-flow write-back targeting the physical
cell of the pair `((r, ent), (j, od))` are exactly the write (if any)
that this pair itself issues. -/
theorem writebackOps_filter {info : ScanInfo} {rows : List SrcRow}
    {mapping : String → String} {chosen : String → PDate → Option ℚ}
    (hnr : info.entRows.Nodup) (hnd : (info.dateMap.map Prod.fst).Nodup)
    (hge : ∀ kd ∈ info.dateMap, 1 ≤ kd.1)
    {r : Nat} {ent : String} (hre : (r, ent) ∈ info.entRows.zip info.targetEntities)
    {j : Nat} {od : Option PDate} (hjd : (j, od) ∈ info.dateMap) :
    (writebackOps info rows mapping chosen).filter
      (fun w => w.1 - 1 == r && w.2.1 - 1 == j - 1) =
    (pairWrite rows mapping chosen r ent (j, od)).toList := by
  unfold writebackOps
  have hzn : ((info.entRows.zip info.targetEntities).map Prod.fst).Nodup :=
    nodup_map_fst_zip hnr
  revert hre hzn
  generalize info.entRows.zip info.targetEntities = res
  intro hre hzn
  induction res with
  | nil => cases hre
  | cons re res ih =>
    simp only [List.map_cons, List.nodup_cons] at hzn
    rw [List.flatMap_cons, List.filter_append]
    rcases List.mem_cons.mp hre with he | ht
    · have hrre : re = (r, ent) := he.symm
      subst hrre
      have htail : ∀ re2 ∈ res, re2.1 ≠ r := by
        intro re2 hre2 hcon
        apply hzn.1
        exact List.mem_map.mpr ⟨re2, hre2, hcon⟩
      rw [filter_flatMap_ne_rows htail, List.append_nil]
      exact filterMap_pairWrite_filter hnd hge hjd r ent
    · have hne : re.1 ≠ r := by
        intro hcon
        apply hzn.1
        exact List.mem_map.mpr ⟨(r, ent), ht, hcon.symm⟩
      have hhead : ((info.dateMap.filterMap
          (pairWrite rows mapping chosen re.1 re.2)).filter
          (fun w => w.1 - 1 == r && w.2.1 - 1 == j - 1)) = [] := by
        rw [List.filter_eq_nil_iff]
        intro w hw
        rcases List.mem_filterMap.mp hw with ⟨kd, _, hpw⟩
        have hsp := pairWrite_spec hpw
        simp only [Bool.and_eq_true, beq_iff_eq, not_and]
        intro hcon
        exfalso
        apply hne
        rw [hsp.1] at hcon
        omega
      rw [hhead, List.nil_append]
      exact ih ht hzn.2

/-- Value of the physical cell of one (entity row, date column) pair
after the write-back: the value this pair's own iteration writes, or
the original cell when the pair issues no write. -/
theorem writeback_cell_eq {g : Grid} {info : ScanInfo} {rows : List SrcRow}
    {mapping : String → String} {chosen : String → PDate → Option ℚ}
    (hnr : info.entRows.Nodup) (hnd : (info.dateMap.map Prod.fst).Nodup)
    (hge : ∀ kd ∈ info.dateMap, 1 ≤ kd.1)
    {r : Nat} {ent : String} (hre : (r, ent) ∈ info.entRows.zip info.targetEntities)
    {j : Nat} {od : Option PDate} (hjd : (j, od) ∈ info.dateMap) :
    (writebackGrid g info rows mapping chosen).cell r (j - 1) =
      (pairWrite rows mapping chosen r ent (j, od)).elim
        (g.cell r (j - 1)) (fun w => w.2.2) := by
  unfold writebackGrid
  rw [applyOps_cell, writebackOps_filter hnr hnd hge hre hjd]
  cases hpw : pairWrite rows mapping chosen r ent (j, od) with
  | none => simp [Option.toList]
  | some w => simp [Option.toList]

/-- Membership in the unmatched list: an entity of the axis paired with
a real axis date such that no source row maps to the pair. -/
theorem mem_unmatchedPairs {info : ScanInfo} {rows : List SrcRow}
    {mapping : String → String} {ent : String} {d : PDate} :
    (ent, d) ∈ unmatchedPairs info rows mapping ↔
      ((∃ re ∈ info.entRows.zip info.targetEntities, re.2 = ent) ∧
       (∃ j, (j, some d) ∈ info.dateMap) ∧
       matchingRows rows mapping ent d = []) := by
  unfold unmatchedPairs
  simp only [List.mem_flatMap, List.mem_filterMap]
  constructor
  · rintro ⟨re, hre, jd, hjd, hpw⟩
    rcases jd with ⟨j, od⟩
    cases od with
    | none => simp at hpw
    | some d2 =>
      simp only at hpw
      by_cases hm : matchingRows rows mapping re.2 d2 = []
      · rw [if_pos hm] at hpw
        have h1 : re.2 = ent := congrArg Prod.fst (Option.some.injEq _ _ ▸ hpw)
        have h2 : d2 = d := congrArg Prod.snd (Option.some.injEq _ _ ▸ hpw)
        subst h1
        subst h2
        exact ⟨⟨re, hre, rfl⟩, ⟨j, hjd⟩, hm⟩
      · rw [if_neg hm] at hpw
        cases hpw
  · rintro ⟨⟨re, hre, hent⟩, ⟨j, hjd⟩, hm⟩
    refine ⟨re, hre, (j, some d), hjd, ?_⟩
    simp only
    rw [hent, if_pos hm]

/-- No write of the write-back ever targets a date column whose parsed
date is null (`NaT`): the loop skips such columns entirely. -/
theorem writebackOps_none_col {info : ScanInfo} {rows : List SrcRow}
    {mapping : String → String} {chosen : String → PDate → Option ℚ} {j2 : Nat}
    (hnd : (info.dateMap.map Prod.fst).Nodup)
    (hjd : (j2, (none : Option PDate)) ∈ info.dateMap) :
    ∀ w ∈ writebackOps info rows mapping chosen, w.2.1 ≠ j2 := by
  intro w hw
  rcases List.mem_flatMap.mp hw with ⟨re, _, hwi⟩
  rcases List.mem_filterMap.mp hwi with ⟨jd, hjdm, hpw⟩
  have hsp := pairWrite_spec hpw
  rcases jd with ⟨k, o⟩
  cases o with
  | none => simp [pairWrite] at hpw
  | some dd =>
    intro hcon
    rw [hsp.2] at hcon
    subst hcon
    have := eq_snd_of_mem_nodup_fst hnd hjdm hjd
    cases this

/-- The axes produced by a successful scan carry no duplicate entity
rows and no duplicate date-column keys. -/
theorem scanTarget_nodups {g : Grid} {info : ScanInfo}
    (h : scanTarget g = Except.ok info) :
    info.entRows.Nodup ∧ (info.dateMap.map Prod.fst).Nodup := by
  unfold scanTarget at h
  cases hfie : findRow g "Investing Entity" with
  | none =>
    rw [hfie] at h
    cases h
  | some i =>
    cases hfgp : findRow g "GP" with
    | none =>
      rw [hfie, hfgp] at h
      cases h
    | some k =>
      rw [hfie, hfgp] at h
      simp only [Except.ok.injEq] at h
      subst h
      constructor
      · exact List.nodup_range' _ _
      · rw [List.map_map]
        have hid : (Prod.fst ∘ fun j => (j, parseDate (g.cell (i - 2 + 1) j))) = id := by
          funext j
          rfl
        rw [hid, List.map_id]
        exact (List.nodup_range _).filter _

/-- The complete flow end to end: scan the target layout, then write
resolved amounts back, with the duplicate-resolution dictionary built by
`chosenOf` from the user's per-group choices. -/
def completeFlow (g : Grid) (rows : List SrcRow) (mapping : String → String)
    (choice : String → PDate → DupChoice) : Option Grid :=
  match scanTarget g with
  | .error _ => none
  | .ok info => some (writebackGrid g info rows mapping (chosenOf info rows mapping choice))

/-- The identity entity mapping (source names already canonical). -/
def idMapping : String → String := fun s => s

/-- An empty duplicate-resolution dictionary. -/
def chosenNone : String → PDate → Option ℚ := fun _ _ => none

/-- C1 (amended): for a pair of the scanned axes with a matching source
record, the amount — the recorded resolution for the pair's key if one
exists, else the first matching record's raw amount — is written into
the grid cell in the entity's own physical row (the code's `r + 1`
merely converts the 0-based scan index to openpyxl's 1-based rows) and
in the column immediately to the LEFT of the scanned `'Last Day'`
column (the 0-based column index is reused unchanged as a 1-based
openpyxl column). -/
theorem claim_C1 (g : Grid) (rows : List SrcRow) (mapping : String → String)
    (chosen : String → PDate → Option ℚ) (info : ScanInfo)
    (hscan : scanTarget g = Except.ok info)
    (hge : ∀ kd ∈ info.dateMap, 1 ≤ kd.1)
    (r : Nat) (ent : String) (j : Nat) (d : PDate) (m0 : SrcRow) (rest : List SrcRow)
    (hre : (r, ent) ∈ info.entRows.zip info.targetEntities)
    (hjd : (j, some d) ∈ info.dateMap)
    (hm : matchingRows rows mapping ent d = m0 :: rest) :
    (writebackGrid g info rows mapping chosen).cell r (j - 1) =
      Cell.num ((chosen ent d).getD m0.amount) := by
  obtain ⟨hnr, hnd⟩ := scanTarget_nodups hscan
  rw [writeback_cell_eq hnr hnd hge hre hjd]
  simp [pairWrite, hm]

/-- Concrete complete-flow instance: entity `'A'` at scan row 5,
`'Last Day'` scanned at column 7 with date 2024-01-15, one source
record `('A', 2024-01-15, 100)`. -/
def gridC1 : Grid where
  nrows := 7
  ncols := 9
  cell := fun r c =>
    if c = 2 then
      (if r = 4 then Cell.str "Investing Entity"
       else if r = 5 then Cell.str "A"
       else if r = 6 then Cell.str "GP" else Cell.empty)
    else if c = 7 then
      (if r = 2 then Cell.str "Last Day"
       else if r = 3 then Cell.date ⟨2024, 1, 15⟩ else Cell.empty)
    else Cell.empty

/-- The source table of the `gridC1` scenario. -/
def rowsC1 : List SrcRow := [⟨"A", some ⟨2024, 1, 15⟩, 100⟩]

/-- The scan result of `gridC1`, written out. -/
def infoC1 : ScanInfo where
  entLabelRow := 4
  gpRow := 6
  entRows := [5]
  targetEntities := ["A"]
  dateCols := [7]
  dateMap := [(7, some ⟨2024, 1, 15⟩)]

/-- C1 counterexample: on `gridC1` the matched pair is entity row 5 and
date column 7, and a resolved amount (100) exists; yet after the
write-back the cell at the claim's location — entity row offset by one
below its axis index, same column as the scanned `'Last Day'` header —
still holds its old (empty) value, while the amount actually lands one
row up and one column left of it, at physical (5, 6). -/
theorem claim_C1_counterexample :
    (completeFlow gridC1 rowsC1 idMapping (fun _ _ => DupChoice.sumAll)).map
        (fun out => (out.cell (5 + 1) 7, out.cell 5 (7 - 1))) =
      some (Cell.empty, Cell.num 100) ∧
    Cell.empty ≠ Cell.num 100 ∧
    (scanTarget gridC1).toOption.map ScanInfo.entRows = some [5] ∧
    (scanTarget gridC1).toOption.map ScanInfo.dateMap = some [(7, some ⟨2024, 1, 15⟩)] ∧
    matchingRows rowsC1 idMapping "A" ⟨2024, 1, 15⟩ ≠ [] := by
  refine ⟨rfl, by decide, rfl, rfl, by decide⟩

/-- Witness for the amended C1 at the `gridC1` scenario. -/
theorem claim_C1_witness :
    (writebackGrid gridC1 infoC1 rowsC1 idMapping chosenNone).cell 5 (7 - 1) =
      Cell.num ((chosenNone "A" ⟨2024, 1, 15⟩).getD 100) :=
  claim_C1 gridC1 rowsC1 idMapping chosenNone infoC1 rfl (by decide) 5 "A" 7
    ⟨2024, 1, 15⟩ ⟨"A", some ⟨2024, 1, 15⟩, 100⟩ [] (by decide) (by decide) (by decide)

/-- C6 (confirmed): the write-back is frame-preserving.  For a pair of
the scanned axes with no matching source record, the pair's own grid
cell (the one the write-back would have written) keeps its value, the
pair is recorded in the unmatched list, and a date column whose parsed
date is null receives no write at all. -/
theorem claim_C6 (g : Grid) (rows : List SrcRow) (mapping : String → String)
    (chosen : String → PDate → Option ℚ) (info : ScanInfo)
    (hscan : scanTarget g = Except.ok info)
    (hge : ∀ kd ∈ info.dateMap, 1 ≤ kd.1)
    (r : Nat) (ent : String) (j : Nat) (d : PDate)
    (hre : (r, ent) ∈ info.entRows.zip info.targetEntities)
    (hjd : (j, some d) ∈ info.dateMap)
    (hm : matchingRows rows mapping ent d = []) :
    (writebackGrid g info rows mapping chosen).cell r (j - 1) = g.cell r (j - 1) ∧
    (ent, d) ∈ unmatchedPairs info rows mapping ∧
    (∀ j2, (j2, (none : Option PDate)) ∈ info.dateMap →
      ∀ w ∈ writebackOps info rows mapping chosen, w.2.1 ≠ j2) := by
  obtain ⟨hnr, hnd⟩ := scanTarget_nodups hscan
  refine ⟨?_, ?_, ?_⟩
  · rw [writeback_cell_eq hnr hnd hge hre hjd]
    simp [pairWrite, hm]
  · rw [mem_unmatchedPairs]
    exact ⟨⟨(r, ent), hre, rfl⟩, ⟨j, hjd⟩, hm⟩
  · intro j2 hj2
    exact writebackOps_none_col hnd hj2

/-- Concrete frame-preservation scenario: three `'Last Day'` columns —
column 4 with an unparseable (null) date, column 5 with 2024-02-29 (no
matching record), column 7 with 2024-01-15 (matched). -/
def gridC6 : Grid where
  nrows := 7
  ncols := 9
  cell := fun r c =>
    if c = 2 then
      (if r = 4 then Cell.str "Investing Entity"
       else if r = 5 then Cell.str "A"
       else if r = 6 then Cell.str "GP" else Cell.empty)
    else if c = 4 then
      (if r = 2 then Cell.str "Last Day" else Cell.empty)
    else if c = 5 then
      (if r = 2 then Cell.str "Last Day"
       else if r = 3 then Cell.date ⟨2024, 2, 29⟩ else Cell.empty)
    else if c = 7 then
      (if r = 2 then Cell.str "Last Day"
       else if r = 3 then Cell.date ⟨2024, 1, 15⟩ else Cell.empty)
    else Cell.empty

/-- The scan result of `gridC6`, written out. -/
def infoC6 : ScanInfo where
  entLabelRow := 4
  gpRow := 6
  entRows := [5]
  targetEntities := ["A"]
  dateCols := [4, 5, 7]
  dateMap := [(4, none), (5, some ⟨2024, 2, 29⟩), (7, some ⟨2024, 1, 15⟩)]

/-- Witness for C6 at the `gridC6` scenario (pair `('A', 2024-02-29)`
unmatched, column 4 null). -/
theorem claim_C6_witness :
    (writebackGrid gridC6 infoC6 rowsC1 idMapping chosenNone).cell 5 (5 - 1) =
      gridC6.cell 5 (5 - 1) ∧
    ("A", (⟨2024, 2, 29⟩ : PDate)) ∈ unmatchedPairs infoC6 rowsC1 idMapping ∧
    (∀ j2, (j2, (none : Option PDate)) ∈ infoC6.dateMap →
      ∀ w ∈ writebackOps infoC6 rowsC1 idMapping chosenNone, w.2.1 ≠ j2) :=
  claim_C6 gridC6 rowsC1 idMapping chosenNone infoC6 rfl (by decide) 5 "A" 5
    ⟨2024, 2, 29⟩ (by decide) (by decide) (by decide)

/-- C9 (confirmed): for a pair with at least one matching source record
but no recorded resolution choice, the write-back writes the raw amount
of the first matching record in source-row order; the remaining matching
records are ignored (not summed) and the pair is not reported as
unmatched. -/
theorem claim_C9 (g : Grid) (rows : List SrcRow) (mapping : String → String)
    (chosen : String → PDate → Option ℚ) (info : ScanInfo)
    (hscan : scanTarget g = Except.ok info)
    (hge : ∀ kd ∈ info.dateMap, 1 ≤ kd.1)
    (r : Nat) (ent : String) (j : Nat) (d : PDate) (m0 : SrcRow) (rest : List SrcRow)
    (hre : (r, ent) ∈ info.entRows.zip info.targetEntities)
    (hjd : (j, some d) ∈ info.dateMap)
    (hm : matchingRows rows mapping ent d = m0 :: rest)
    (hnone : chosen ent d = none) :
    (writebackGrid g info rows mapping chosen).cell r (j - 1) = Cell.num m0.amount ∧
    (ent, d) ∉ unmatchedPairs info rows mapping := by
  obtain ⟨hnr, hnd⟩ := scanTarget_nodups hscan
  constructor
  · rw [writeback_cell_eq hnr hnd hge hre hjd]
    simp [pairWrite, hm, hnone]
  · rw [mem_unmatchedPairs]
    rintro ⟨_, _, hcon⟩
    rw [hm] at hcon
    cases hcon

/-- Two source records for the same pair `('A', 2024-01-15)`: amounts
100 (first in row order) and 50. -/
def rowsC9 : List SrcRow :=
  [⟨"A", some ⟨2024, 1, 15⟩, 100⟩, ⟨"A", some ⟨2024, 1, 15⟩, 50⟩]

/-- Witness for C9 at the `gridC1` layout with two matching records and
no recorded choice: the first record's amount (100) is written — the
second (50) is neither added nor reported. -/
theorem claim_C9_witness :
    (writebackGrid gridC1 infoC1 rowsC9 idMapping chosenNone).cell 5 (7 - 1) =
      Cell.num 100 ∧
    ("A", (⟨2024, 1, 15⟩ : PDate)) ∉ unmatchedPairs infoC1 rowsC9 idMapping :=
  claim_C9 gridC1 rowsC9 idMapping chosenNone infoC1 rfl (by decide) 5 "A" 7
    ⟨2024, 1, 15⟩ ⟨"A", some ⟨2024, 1, 15⟩, 100⟩ [⟨"A", some ⟨2024, 1, 15⟩, 50⟩]
    (by decide) (by decide) (by decide) (by decide)

/-- Target grid of the duplicate-resolution example: entities
`'John Smith'` (row 5) and `'Jane Doe'` (row 6), one `'Last Day'`
column (7) dated 2024-01-15. -/
def gridC7 : Grid where
  nrows := 8
  ncols := 9
  cell := fun r c =>
    if c = 2 then
      (if r = 4 then Cell.str "Investing Entity"
       else if r = 5 then Cell.str "John Smith"
       else if r = 6 then Cell.str "Jane Doe"
       else if r = 7 then Cell.str "GP" else Cell.empty)
    else if c = 7 then
      (if r = 2 then Cell.str "Last Day"
       else if r = 3 then Cell.date ⟨2024, 1, 15⟩ else Cell.empty)
    else Cell.empty

/-- Source table of the duplicate-resolution example: `'Jon Smith'`
(typo) with 100 and `'John Smith'` with 50 on the same date, plus a
second duplicate group `'Jane Doe'` with 10 and 20. -/
def rowsC7 : List SrcRow :=
  [⟨"Jon Smith", some ⟨2024, 1, 15⟩, 100⟩,
   ⟨"John Smith", some ⟨2024, 1, 15⟩, 50⟩,
   ⟨"Jane Doe", some ⟨2024, 1, 15⟩, 10⟩,
   ⟨"Jane Doe", some ⟨2024, 1, 15⟩, 20⟩]

/-- The user's mapping table: the typo `'Jon Smith'` mapped to canonical
`'John Smith'`, every other name kept. -/
def mappingC7 : String → String := fun s => if s = "Jon Smith" then "John Smith" else s

/-- Bulk default: every duplicate group resolved as `'SUM'`. -/
def choiceSum : String → PDate → DupChoice := fun _ _ => DupChoice.sumAll

/-- The John Smith group resolved by picking 100; others left at `'SUM'`. -/
def choicePick100 : String → PDate → DupChoice :=
  fun ent _ => if ent = "John Smith" then DupChoice.pick 100 else DupChoice.sumAll

set_option maxRecDepth 8192 in
/-- C7 (confirmed): with both records mapped to canonical
`'John Smith'`, the default `'sum'` policy writes 150 into the matched
cell; explicitly choosing 100 writes 100 instead; and the choice
replaces the sum for that key only — the other duplicate group
(`'Jane Doe'`, 10 + 20) still receives its sum 30 in both scenarios. -/
theorem claim_C7 :
    (completeFlow gridC7 rowsC7 mappingC7 choiceSum).map (fun o => o.cell 5 6) =
      some (Cell.num 150) ∧
    (completeFlow gridC7 rowsC7 mappingC7 choicePick100).map (fun o => o.cell 5 6) =
      some (Cell.num 100) ∧
    (completeFlow gridC7 rowsC7 mappingC7 choiceSum).map (fun o => o.cell 6 6) =
      some (Cell.num 30) ∧
    (completeFlow gridC7 rowsC7 mappingC7 choicePick100).map (fun o => o.cell 6 6) =
      some (Cell.num 30) := by
  refine ⟨?_, ?_, ?_, ?_⟩ <;> with_unfolding_all rfl

/-!  The incomplete flow (source lines 276–394): locate the entity rows
(GP row inclusive this time), copy the first block's three header rows,
build the list of new dates, pad it by the 0.56 quota rule, and append
one 7-column block per date. -/

/-- The `entity_rows` of the incomplete flow (lines 281–284), as 1-based
worksheet rows: `colC.index("Investing Entity")+1` converts the 0-based
list index of the label to a 1-based row, and
`range(ent_label_row+1, gp_row+1)` runs from the row after the label
THROUGH the GP row inclusive.  Empty when a sentinel is missing (Python
would raise `ValueError` there instead). -/
def incEntityRows (g : Grid) : List Nat :=
  match findRow g "Investing Entity", findRow g "GP" with
  | some i, some k => List.range' (i + 2) (k - i)
  | _, _ => []

/-- First block column and block width (line 287): `first_col, width = 6, 7`. -/
def firstCol : Nat := 6

/-- The fixed 7-column width of a distribution block. -/
def blockWidth : Nat := 7

/-- One copied header row of the first block (lines 288–290): the cells
of 1-based row `r1` in 1-based columns 6..12. -/
def hdrRow (g : Grid) (r1 : Nat) : List Cell :=
  (List.range' firstCol blockWidth).map (fun c => g.cell (r1 - 1) (c - 1))

/-- The `existing` cell (line 293): `ws.cell(row=4, column=7).value`,
the first block's date label. -/
def existingCell (g : Grid) : Cell := g.cell 3 6

/-- Python `d != existing` (line 295): `d` is a `datetime.date`
(`df_src['parsed_date']` holds `.dt.date` values) while `existing` is
the raw openpyxl value of cell G4 — `None` for an empty cell, a `str`
for text (the app itself writes the block's date label as text), a
`float` for a numeric cell, or a `datetime.datetime` for a
date-formatted cell (openpyxl's Excel-date conversion returns
`datetime.datetime`, never a plain `date`).  Python's `!=` between a
`date` and `None`, `str`, `float` or `datetime.datetime` is always
`True` — even on the same calendar day — so the comparison filters
nothing; it is dead code. -/
def pyNeqDate (d : PDate) (c : Cell) : Bool :=
  match c with
  | .empty => true
  | .str _ => true
  | .num _ => true
  | .date _ => true

/-- The dead guard, as a lemma: the cross-type comparison is `True` for
every cell content. -/
theorem pyNeqDate_true (d : PDate) (c : Cell) : pyNeqDate d c = true := by
  unfold pyNeqDate
  cases c <;> rfl

/-- `new_dates` (lines 294–295): the distinct parsed source dates
(`.unique()`, first-occurrence order), minus unparseable ones
(`pd.notna`) and minus the existing block's date, in ascending sorted
order (Python `sorted`). -/
def newDates (parsed : List (Option PDate)) (existing : Cell) : List PDate :=
  List.insertionSort dateLe
    ((parsed.dedup).filterMap (fun od =>
      match od with
      | none => none
      | some d => if pyNeqDate d existing then some d else none))

/-- `dates_to_use` (lines 318–321): restrict the new dates to the
user's date range (`start <= d <= end`), then to the multiselect
(`sel`), then sort ascending again. -/
def datesToUse (nd : List PDate) (startD endD : PDate) (sel : PDate → Bool) : List PDate :=
  List.insertionSort dateLe
    (((nd.filter (fun d => decide (dateLe startD d) && decide (dateLe d endD))).filter sel))

/-- The quota rule's required total (line 345): `ceil(N / 0.56)`.
(The Python float division agrees with the exact rational for every
feasible `N`; the ceiling is modelled exactly over `ℚ`.) -/
def requiredBlocks (n : Nat) : Nat := (⌈(n : ℚ) / (56 / 100)⌉).toNat

/-- The 2040-01-01 placeholder padding (lines 344–349): extend the
selected dates with `required - N` placeholders when that is positive. -/
def padDates (l : List PDate) : List PDate :=
  let extra := requiredBlocks l.length - l.length
  if 0 < extra then l ++ List.replicate extra ⟨2040, 1, 1⟩ else l

/-- Base column of appended block `idx` (line 354):
`base = first_col + width*(idx+1)`, the next unused 7-column slot after
the single existing block at columns 6..12. -/
def blockBase (idx : Nat) : Nat := firstCol + blockWidth * (idx + 1)

/-- `openpyxl.utils.get_column_letter`: bijective base-26 column
letters (1 ↦ A, 26 ↦ Z, 27 ↦ AA, ...).  Structural fuel recursion
(the quotient chain is bounded by `n`); letters beyond `Z` recurse on
`(n-1)/26`. -/
def colLetterAux : Nat → Nat → String
  | 0, _ => ""
  | _ + 1, 0 => ""
  | fuel + 1, n => colLetterAux fuel ((n - 1) / 26) ++
      String.singleton (Char.ofNat (65 + (n - 1) % 26))

/-- Column letter of 1-based column `n`. -/
def colLetter (n : Nat) : String := colLetterAux n n

/-- English month abbreviations, Python `strftime('%b')`. -/
def monthAbbr : Nat → String
  | 1 => "Jan" | 2 => "Feb" | 3 => "Mar" | 4 => "Apr" | 5 => "May" | 6 => "Jun"
  | 7 => "Jul" | 8 => "Aug" | 9 => "Sep" | 10 => "Oct" | 11 => "Nov" | 12 => "Dec"
  | _ => ""

/-- English month names, Python `strftime('%B')`. -/
def monthName : Nat → String
  | 1 => "January" | 2 => "February" | 3 => "March" | 4 => "April"
  | 5 => "May" | 6 => "June" | 7 => "July" | 8 => "August"
  | 9 => "September" | 10 => "October" | 11 => "November" | 12 => "December"
  | _ => ""

/-- The short label of row 2 (line 360): `"{day} {Mon} {year}"`. -/
def shortLabel (d : PDate) : String :=
  toString d.day ++ " " ++ monthAbbr d.month ++ " " ++ toString d.year

/-- The full label of row 4 (line 366): `"{day} {Month} {year}"`. -/
def fullLabel (d : PDate) : String :=
  toString d.day ++ " " ++ monthName d.month ++ " " ++ toString d.year

/-- The net formula of a non-GP entity row (lines 385–389):
`=SUM(G{r},-T{r},A{r},-P{r})` with gross `g = base`, transfer
`t = base+1`, promote `p = base+2`, adjustment `a = base+3`. -/
def netExpr (base r : Nat) : String :=
  "=SUM(" ++ colLetter base ++ toString r ++ ",-" ++ colLetter (base + 1) ++ toString r ++
    "," ++ colLetter (base + 3) ++ toString r ++ ",-" ++ colLetter (base + 2) ++ toString r ++ ")"

/-- The GP row's simpler net formula (lines 391–393): no promote term. -/
def gpNetExpr (base r : Nat) : String :=
  "=SUM(" ++ colLetter base ++ toString r ++ ",-" ++ colLetter (base + 1) ++ toString r ++
    "," ++ colLetter (base + 3) ++ toString r ++ ")"

/-- The GP aggregation formula (line 381): sum of the promote sub-column
over 1-based rows `s..e`. -/
def gpSumExpr (base s e : Nat) : String :=
  "=SUM(" ++ colLetter (base + 2) ++ toString s ++ ":" ++ colLetter (base + 2) ++ toString e ++ ")"

/-- All value writes of one appended block (lines 353–394), in program
order: the three copied header rows, the row-2 short label block, the
row-4 full label block, a payment-date cell per entity row (GP row
included), the GP aggregation formula over `entity_rows[0]` through
`entity_rows[-2]`, the promote-bearing net formula for each row of
`entity_rows[:-1]`, and the promote-free net formula for the GP row
(`entity_rows[-1]`).  Coordinates are 1-based (openpyxl); formula
strings are stored as string cells.  Python would raise `IndexError`
for `entity_rows[-1]` / `[-2]` on fewer than two entity rows; the
embedding totalizes those accesses with defaults, and every theorem
assumes at least two entity rows. -/
def blockWrites (hdr1 hdr3 hdr5 : List Cell) (ers : List Nat) (distType : String)
    (curYear : Nat) (idx : Nat) (d : PDate) : List (Nat × Nat × Cell) :=
  let base := blockBase idx
  ((List.zip [1, 3, 5] [hdr1, hdr3, hdr5]).flatMap
    (fun rv => rv.2.enum.map (fun jv => (rv.1, base + jv.1, jv.2)))) ++
  [(2, base, Cell.str (shortLabel d ++ " - " ++ shortLabel d)),
   (2, base + 1, Cell.str "Custom"),
   (2, base + 2, Cell.str "-"),
   (2, base + 3, Cell.num curYear)] ++
  [(4, base, Cell.str (fullLabel d)),
   (4, base + 1, Cell.str (fullLabel d)),
   (4, base + 2, Cell.str distType),
   (4, base + 3, Cell.str "USD")] ++
  (ers.map (fun r => (r, base + 5, Cell.date d))) ++
  [(ers.getLastD 0, base, Cell.str (gpSumExpr base (ers.headD 0) (ers.dropLast.getLastD 0)))] ++
  (ers.dropLast.map (fun r => (r, base + 4, Cell.str (netExpr base r)))) ++
  [(ers.getLastD 0, base + 4, Cell.str (gpNetExpr base (ers.getLastD 0)))]

/-- The `number_format = 'm/d/yyyy'` assignments of one appended block
(line 377): one per entity row, on the payment-date sub-column. -/
def blockFormatOps (ers : List Nat) (idx : Nat) : List (Nat × Nat × String) :=
  ers.map (fun r => (r, blockBase idx + 5, "m/d/yyyy"))

/-- All value writes of the append loop (lines 353–394): one block per
date of the (padded) list, in order. -/
def incAppendOps (g : Grid) (distType : String) (curYear : Nat)
    (dates : List PDate) : List (Nat × Nat × Cell) :=
  dates.enum.flatMap (fun p =>
    blockWrites (hdrRow g 1) (hdrRow g 3) (hdrRow g 5) (incEntityRows g)
      distType curYear p.1 p.2)

/-- The quota requirement never asks for fewer blocks than there are
real dates. -/
theorem requiredBlocks_ge (n : Nat) : n ≤ requiredBlocks n := by
  unfold requiredBlocks
  have h1 : (n : ℚ) ≤ (n : ℚ) / (56 / 100) := by
    rw [le_div_iff₀ (by norm_num : (0 : ℚ) < 56 / 100)]
    nlinarith [Nat.cast_nonneg (α := ℚ) n]
  have h2 : (n : ℤ) ≤ ⌈(n : ℚ) / (56 / 100)⌉ := by
    calc (n : ℤ) = ⌈((n : ℤ) : ℚ)⌉ := by rw [Int.ceil_intCast]
    _ = ⌈(n : ℚ)⌉ := by norm_num
    _ ≤ ⌈(n : ℚ) / (56 / 100)⌉ := Int.ceil_le_ceil h1
  omega

/-- `ceil(0 / 0.56) = 0`. -/
theorem requiredBlocks_zero : requiredBlocks 0 = 0 := by
  unfold requiredBlocks
  norm_num

/-- `ceil(1 / 0.56) = ceil(25/14) = 2`. -/
theorem requiredBlocks_one : requiredBlocks 1 = 2 := by
  unfold requiredBlocks
  have h1 : ((1 : Nat) : ℚ) / (56 / 100) = 25 / 14 := by norm_num
  rw [h1]
  have h2 : ⌈(25 : ℚ) / 14⌉ = 2 := by
    rw [Int.ceil_eq_iff]
    constructor <;> norm_num
  rw [h2]
  rfl

/-- Enumerating a replicated list pairs each copy with consecutive
indices. -/
theorem enumFrom_replicate {α : Type _} (a : α) :
    ∀ (k n : Nat), List.enumFrom n (List.replicate k a) =
      (List.range' n k).map (fun i => (i, a)) := by
  intro k
  induction k with
  | zero => intro n; rfl
  | succ k ih =>
    intro n
    simp only [List.replicate_succ, List.enumFrom, List.range', List.map_cons]
    rw [ih (n + 1)]

/-- C4 (confirmed): for `N` selected new dates, the Block Appender pads
the date list with 2040-01-01 placeholders until the total reaches
`ceil(N / 0.56)` — the real dates stay as a prefix, the padding is
exactly `ceil(N/0.56) - N` placeholders, each placeholder then receives
a full block exactly like a real date (one block per list entry, by the
same `blockWrites`); in particular `N = 1` gives 2 blocks total (one
placeholder) and `N = 0` gives 0 appended blocks. -/
theorem claim_C4 :
    (∀ l : List PDate,
      (padDates l).length = requiredBlocks l.length ∧
      (padDates l).take l.length = l ∧
      (padDates l).drop l.length =
        List.replicate (requiredBlocks l.length - l.length) (⟨2040, 1, 1⟩ : PDate)) ∧
    requiredBlocks 0 = 0 ∧
    padDates ([] : List PDate) = [] ∧
    requiredBlocks 1 = 2 ∧
    padDates [(⟨2024, 3, 31⟩ : PDate)] = [⟨2024, 3, 31⟩, ⟨2040, 1, 1⟩] ∧
    (∀ (g : Grid) (dt : String) (y : Nat) (l : List PDate),
      incAppendOps g dt y (padDates l) =
        incAppendOps g dt y l ++
        (List.range' l.length (requiredBlocks l.length - l.length)).flatMap
          (fun i => blockWrites (hdrRow g 1) (hdrRow g 3) (hdrRow g 5)
            (incEntityRows g) dt y i ⟨2040, 1, 1⟩)) := by
  have hpad : ∀ l : List PDate,
      padDates l = l ++ List.replicate (requiredBlocks l.length - l.length) ⟨2040, 1, 1⟩ := by
    intro l
    unfold padDates
    by_cases hx : 0 < requiredBlocks l.length - l.length
    · rw [if_pos hx]
    · rw [if_neg hx]
      have : requiredBlocks l.length - l.length = 0 := by omega
      rw [this, List.replicate_zero, List.append_nil]
  have hmain : ∀ l : List PDate,
      (padDates l).length = requiredBlocks l.length ∧
      (padDates l).take l.length = l ∧
      (padDates l).drop l.length =
        List.replicate (requiredBlocks l.length - l.length) (⟨2040, 1, 1⟩ : PDate) := by
    intro l
    have hge := requiredBlocks_ge l.length
    rw [hpad l]
    refine ⟨?_, ?_, ?_⟩
    · rw [List.length_append, List.length_replicate]
      omega
    · exact List.take_left _ _
    · exact List.drop_left _ _
  refine ⟨hmain, requiredBlocks_zero, ?_, requiredBlocks_one, ?_, ?_⟩
  · rw [hpad []]
    simp [requiredBlocks_zero]
  · rw [hpad [⟨2024, 3, 31⟩]]
    simp only [List.length_singleton, requiredBlocks_one]
    rfl
  · intro g dt y l
    unfold incAppendOps
    rw [hpad l, List.enum_append, List.flatMap_append, enumFrom_replicate]
    congr 1
    rw [List.flatMap_map]

/-- Membership in `new_dates`: exactly the parsed source dates that are
real (not `NaT`) — the `d != existing` guard never excludes anything. -/
theorem mem_newDates {parsed : List (Option PDate)} {existing : Cell} {x : PDate} :
    x ∈ newDates parsed existing ↔ some x ∈ parsed := by
  unfold newDates
  rw [(List.perm_insertionSort dateLe _).mem_iff, List.mem_filterMap]
  constructor
  · rintro ⟨od, hod, hf⟩
    cases od with
    | none => simp at hf
    | some d =>
      simp only at hf
      rw [if_pos (pyNeqDate_true d existing)] at hf
      injection hf with hdx
      subst hdx
      exact List.mem_dedup.mp hod
  · intro hmem
    refine ⟨some x, List.mem_dedup.mpr hmem, ?_⟩
    simp only
    rw [if_pos (pyNeqDate_true x existing)]

/-- Counterexample to C8 as stated: with parsed source dates
[2024-05-01, 2024-01-02] and the existing first block dated 2024-01-02,
the duplicate date 2024-01-02 IS in `new_dates` and gets a block — the
guard `d != existing` (line 295) compares a `datetime.date` against the
`datetime.datetime` (or `str`) that openpyxl returns, which is never
equal in Python, so dates already present in the grid are not
excluded. -/
theorem claim_C8_counterexample :
    (⟨2024, 1, 2⟩ : PDate) ∈
      newDates [some ⟨2024, 5, 1⟩, some ⟨2024, 1, 2⟩, none] (Cell.date ⟨2024, 1, 2⟩) := by
  decide

/-- C8 (corrected): the Block Appender's date list is ascending and
duplicate-free among itself, but it does NOT exclude dates already
present in the grid: it consists of ALL real parsed source dates — the
`d != existing` comparison never fires (cross-type Python `!=`), so
`new_dates` is independent of the consulted cell's content and a source
date equal to the existing block's date is appended again.  The only
grid value the code consults at all is the single cell G4 (row 4,
column 7).  The range/selection step only narrows the list, and
appended block `idx` occupies exactly the 7-column slot starting at
`first_col + width*(idx+1)` = column 13 + 7·idx — immediately after the
template's FIRST block at columns 6..12, regardless of how many blocks
the grid already holds. -/
theorem claim_C8 :
    (∀ (parsed : List (Option PDate)) (existing : Cell),
      List.Sorted dateLe (newDates parsed existing) ∧
      (newDates parsed existing).Nodup ∧
      (∀ x, x ∈ newDates parsed existing ↔ some x ∈ parsed)) ∧
    (∀ (parsed : List (Option PDate)) (c c2 : Cell),
      newDates parsed c = newDates parsed c2) ∧
    (∀ (parsed : List (Option PDate)) (e : PDate),
      some e ∈ parsed → e ∈ newDates parsed (Cell.date e)) ∧
    (∀ (nd : List PDate) (s e : PDate) (sel : PDate → Bool),
      List.Sorted dateLe (datesToUse nd s e sel) ∧
      ∀ x ∈ datesToUse nd s e sel, x ∈ nd) ∧
    (∀ g : Grid, existingCell g = g.cell 3 6) ∧
    (∀ idx, blockBase idx = 13 + blockWidth * idx) ∧
    (∀ idx, blockBase (idx + 1) = blockBase idx + blockWidth) ∧
    (∀ (g : Grid) (dt : String) (y : Nat) (idx : Nat) (d : PDate),
      ∀ w ∈ blockWrites (hdrRow g 1) (hdrRow g 3) (hdrRow g 5) (incEntityRows g) dt y idx d,
        blockBase idx ≤ w.2.1 ∧ w.2.1 < blockBase idx + blockWidth) := by
  refine ⟨?_, ?_, ?_, ?_, fun g => rfl, ?_, ?_, ?_⟩
  · intro parsed existing
    refine ⟨List.sorted_insertionSort dateLe _, ?_, fun x => mem_newDates⟩
    unfold newDates
    rw [(List.perm_insertionSort dateLe _).nodup_iff]
    refine List.Nodup.filterMap ?_ (List.nodup_dedup parsed)
    intro a a2 b hb hb2
    cases a with
    | none => simp at hb
    | some d =>
      cases a2 with
      | none => simp at hb2
      | some d2 =>
        simp only at hb hb2
        rw [if_pos (pyNeqDate_true d existing)] at hb
        rw [if_pos (pyNeqDate_true d2 existing)] at hb2
        injection hb with h1
        injection hb2 with h2
        rw [h1, h2]
  · intro parsed c c2
    unfold newDates
    simp only [pyNeqDate_true, if_true]
  · intro parsed e he
    exact mem_newDates.mpr he
  · intro nd s e sel
    refine ⟨List.sorted_insertionSort dateLe _, ?_⟩
    intro x hx
    unfold datesToUse at hx
    rw [(List.perm_insertionSort dateLe _).mem_iff] at hx
    exact List.mem_of_mem_filter (List.mem_of_mem_filter hx)
  · intro idx
    unfold blockBase firstCol blockWidth
    ring
  · intro idx
    unfold blockBase
    ring
  · intro g dt y idx d w hw
    unfold blockWrites at hw
    simp only [List.mem_append] at hw
    have hwidth : ∀ r1, (hdrRow g r1).length = 7 := by
      intro r1
      unfold hdrRow
      rw [List.length_map, List.length_range']
      rfl
    rcases hw with ((((((hw | hw) | hw) | hw) | hw) | hw) | hw)
    · rcases List.mem_flatMap.mp hw with ⟨rv, hrv, hw2⟩
      rcases List.mem_map.mp hw2 with ⟨jv, hjv, hweq⟩
      have hlt : jv.1 < rv.2.length := by
        rcases jv with ⟨ji, jc⟩
        exact (List.mem_enum hjv).1
      have hrv2 : rv.2 = hdrRow g 1 ∨ rv.2 = hdrRow g 3 ∨ rv.2 = hdrRow g 5 := by
        have := (List.of_mem_zip hrv).2
        simpa using this
      have hlen : rv.2.length = 7 := by
        rcases hrv2 with h | h | h <;> rw [h, hwidth]
      rw [← hweq]
      dsimp only
      simp only [blockWidth]
      omega
    · simp only [List.mem_cons, List.not_mem_nil, or_false] at hw
      rcases hw with h | h | h | h <;> subst h <;> dsimp only <;>
        simp only [blockWidth] <;> omega
    · simp only [List.mem_cons, List.not_mem_nil, or_false] at hw
      rcases hw with h | h | h | h <;> subst h <;> dsimp only <;>
        simp only [blockWidth] <;> omega
    · rcases List.mem_map.mp hw with ⟨r, _, hweq⟩
      rw [← hweq]
      dsimp only
      simp only [blockWidth]
      omega
    · simp only [List.mem_singleton] at hw
      subst hw
      dsimp only
      simp only [blockWidth]
      omega
    · rcases List.mem_map.mp hw with ⟨r, _, hweq⟩
      rw [← hweq]
      dsimp only
      simp only [blockWidth]
      omega
    · simp only [List.mem_singleton] at hw
      subst hw
      dsimp only
      simp only [blockWidth]
      omega

/-- Filtering a duplicate-free list of rows for one member keeps exactly
that member. -/
theorem nodup_filter_beq {l : List Nat} (h : l.Nodup) {r : Nat} (hr : r ∈ l) :
    l.filter (fun x => x == r) = [r] := by
  induction l with
  | nil => cases hr
  | cons a l ih =>
    rw [List.nodup_cons] at h
    rcases List.mem_cons.mp hr with he | ht
    · subst he
      rw [List.filter_cons, if_pos (by simp)]
      have hnil : l.filter (fun x => x == r) = [] := by
        rw [List.filter_eq_nil_iff]
        intro x hx
        simp only [beq_iff_eq]
        intro hcon
        subst hcon
        exact h.1 hx
      rw [hnil]
    · have hna : ¬((a == r) = true) := by
        simp only [beq_iff_eq]
        intro hcon
        subst hcon
        exact h.1 ht
      rw [List.filter_cons, if_neg hna]
      exact ih h.2 ht

/-- A row/column filter vanishes on writes whose rows all differ. -/
theorem filter_rowcol_nil_of_rows {l : List (Nat × Nat × Cell)} {r c : Nat}
    (h : ∀ w ∈ l, w.1 ≠ r) :
    l.filter (fun w => w.1 == r && w.2.1 == c) = [] := by
  rw [List.filter_eq_nil_iff]
  intro w hw
  simp only [Bool.and_eq_true, beq_iff_eq, not_and]
  intro h1
  exact absurd h1 (h w hw)

/-- A row/column filter vanishes on writes whose columns all differ. -/
theorem filter_rowcol_nil_of_cols {l : List (Nat × Nat × Cell)} {r c : Nat}
    (h : ∀ w ∈ l, w.2.1 ≠ c) :
    l.filter (fun w => w.1 == r && w.2.1 == c) = [] := by
  rw [List.filter_eq_nil_iff]
  intro w hw
  simp only [Bool.and_eq_true, beq_iff_eq, not_and]
  intro _
  exact h w hw

/-- Filtering the per-row writes of one sub-column for one entity row
keeps exactly that row's write. -/
theorem filter_rowcol_map_rows {rs : List Nat} {c0 : Nat} {v : Cell}
    (hnd : rs.Nodup) {r : Nat} (hr : r ∈ rs) :
    (rs.map (fun x => (x, c0, v))).filter (fun w => w.1 == r && w.2.1 == c0) =
      [(r, c0, v)] := by
  rw [List.filter_map]
  have hcong : ∀ x ∈ rs,
      ((fun w : Nat × Nat × Cell => w.1 == r && w.2.1 == c0) ∘ (fun x => (x, c0, v))) x =
        (x == r) := by
    intro x _
    simp [Function.comp]
  rw [List.filter_congr hcong, nodup_filter_beq hnd hr]
  rfl

/-- Filtering per-row writes whose value depends on the row, for one
entity row of a duplicate-free row list. -/
theorem filter_rowcol_map_rows_dep {rs : List Nat} {c0 : Nat} {f : Nat → Cell}
    (hnd : rs.Nodup) {r : Nat} (hr : r ∈ rs) :
    (rs.map (fun x => (x, c0, f x))).filter (fun w => w.1 == r && w.2.1 == c0) =
      [(r, c0, f r)] := by
  rw [List.filter_map]
  have hcong : ∀ x ∈ rs,
      ((fun w : Nat × Nat × Cell => w.1 == r && w.2.1 == c0) ∘ (fun x => (x, c0, f x))) x =
        (x == r) := by
    intro x _
    simp [Function.comp]
  rw [List.filter_congr hcong, nodup_filter_beq hnd hr]
  rfl

/-- Per-value filters on a one-element list. -/
theorem filter_singleton_pos {α : Type _} {p : α → Bool} {x : α} (h : p x = true) :
    [x].filter p = [x] := by
  simp [List.filter, h]

/-- Per-value filters on a one-element list, negative case. -/
theorem filter_singleton_neg {α : Type _} {p : α → Bool} {x : α} (h : p x = false) :
    [x].filter p = [] := by
  simp [List.filter, h]

/-- Shifting a `range'` down by one. -/
theorem map_sub_one_range' : ∀ (n s : Nat),
    (List.range' (s + 1) n).map (fun r => r - 1) = List.range' s n := by
  intro n
  induction n with
  | zero => intro s; rfl
  | succ n ih =>
    intro s
    simp only [List.range', List.map_cons]
    rw [ih (s + 1)]
    simp

/-- C10 (confirmed): the incomplete flow's entity-row range runs from
the row after the `'Investing Entity'` label THROUGH the `'GP'` row
inclusive — one row more than the complete flow's entity axis, which
stops before GP.  Consequently every appended block writes a payment
date (with an `'m/d/yyyy'` format assignment) for the GP row as well as
for each investor row, while the promote-bearing net formula is written
exactly for the rows before GP, the GP row instead receiving the
promote-free net formula, and the GP aggregation formula sums the
promote sub-column over exactly the rows before GP. -/
theorem claim_C10 (g : Grid) (i0 g0 : Nat)
    (hfie : findRow g "Investing Entity" = some i0)
    (hfgp : findRow g "GP" = some g0)
    (hlen : i0 + 2 ≤ g0) (hrow : 4 ≤ i0) :
    incEntityRows g = List.range' (i0 + 2) (g0 - i0) ∧
    (∀ info, scanTarget g = Except.ok info →
      ((incEntityRows g).map (fun r => r - 1) = info.entRows ++ [g0] ∧
       (incEntityRows g).dropLast = info.entRows.map (fun r => r + 1))) ∧
    (incEntityRows g).getLastD 0 = g0 + 1 ∧
    g0 + 1 ∈ incEntityRows g ∧
    (∀ (dt : String) (y idx : Nat) (d : PDate),
      (∀ r ∈ incEntityRows g,
        (blockWrites (hdrRow g 1) (hdrRow g 3) (hdrRow g 5) (incEntityRows g) dt y idx d).filter
          (fun w => w.1 == r && w.2.1 == blockBase idx + 5) =
          [(r, blockBase idx + 5, Cell.date d)] ∧
        (r, blockBase idx + 5, "m/d/yyyy") ∈ blockFormatOps (incEntityRows g) idx) ∧
      (∀ r ∈ (incEntityRows g).dropLast,
        (blockWrites (hdrRow g 1) (hdrRow g 3) (hdrRow g 5) (incEntityRows g) dt y idx d).filter
          (fun w => w.1 == r && w.2.1 == blockBase idx + 4) =
          [(r, blockBase idx + 4, Cell.str (netExpr (blockBase idx) r))]) ∧
      ((blockWrites (hdrRow g 1) (hdrRow g 3) (hdrRow g 5) (incEntityRows g) dt y idx d).filter
          (fun w => w.1 == g0 + 1 && w.2.1 == blockBase idx + 4) =
          [(g0 + 1, blockBase idx + 4, Cell.str (gpNetExpr (blockBase idx) (g0 + 1)))]) ∧
      ((blockWrites (hdrRow g 1) (hdrRow g 3) (hdrRow g 5) (incEntityRows g) dt y idx d).filter
          (fun w => w.1 == g0 + 1 && w.2.1 == blockBase idx) =
          [(g0 + 1, blockBase idx, Cell.str (gpSumExpr (blockBase idx) (i0 + 2) g0))])) := by
  have hers : incEntityRows g = List.range' (i0 + 2) (g0 - i0) := by
    unfold incEntityRows
    rw [hfie, hfgp]
  have hn2 : g0 - i0 = (g0 - i0 - 1) + 1 := by omega
  have hconcat : List.range' (i0 + 2) (g0 - i0) =
      List.range' (i0 + 2) (g0 - i0 - 1) ++ [g0 + 1] := by
    have h0 : List.range' (i0 + 2) (g0 - i0 - 1 + 1) 1 =
        List.range' (i0 + 2) (g0 - i0 - 1) 1 ++ [i0 + 2 + 1 * (g0 - i0 - 1)] :=
      List.range'_concat _ _
    rw [← hn2] at h0
    have he : i0 + 2 + 1 * (g0 - i0 - 1) = g0 + 1 := by omega
    rw [he] at h0
    exact h0
  have hlast : (incEntityRows g).getLastD 0 = g0 + 1 := by
    rw [hers, hconcat, List.getLastD_concat]
  have hdl : (incEntityRows g).dropLast = List.range' (i0 + 2) (g0 - i0 - 1) := by
    rw [hers, hconcat, List.dropLast_concat]
  have hnd : (incEntityRows g).Nodup := by
    rw [hers]
    exact List.nodup_range' _ _
  have hdnd : (incEntityRows g).dropLast.Nodup := by
    rw [hdl]
    exact List.nodup_range' _ _
  have hmemgp : g0 + 1 ∈ incEntityRows g := by
    rw [hers, hconcat]
    simp
  have hlo : ∀ r ∈ incEntityRows g, i0 + 2 ≤ r ∧ r ≤ g0 + 1 := by
    intro r hr
    rw [hers] at hr
    rcases List.mem_range'.mp hr with ⟨i, hi, heq⟩
    omega
  have hdlo : ∀ r ∈ (incEntityRows g).dropLast, i0 + 2 ≤ r ∧ r ≤ g0 := by
    intro r hr
    rw [hdl] at hr
    rcases List.mem_range'.mp hr with ⟨i, hi, heq⟩
    omega
  have hheadD : (incEntityRows g).headD 0 = i0 + 2 := by
    rw [hers, hn2]
    rfl
  have hdllast : (incEntityRows g).dropLast.getLastD 0 = g0 := by
    rw [hdl]
    have h1 : g0 - i0 - 1 = (g0 - i0 - 2) + 1 := by omega
    rw [h1, List.range'_concat, List.getLastD_concat]
    omega
  refine ⟨hers, ?_, hlast, hmemgp, ?_⟩
  · intro info hscan
    unfold scanTarget at hscan
    rw [hfie, hfgp] at hscan
    simp only [Except.ok.injEq] at hscan
    subst hscan
    constructor
    · simp only
      rw [hers]
      have hm : (List.range' (i0 + 1 + 1) (g0 - i0)).map (fun r => r - 1) =
          List.range' (i0 + 1) (g0 - i0) := map_sub_one_range' _ _
      have h12 : i0 + 2 = i0 + 1 + 1 := by omega
      rw [h12, hm, hn2, List.range'_concat]
      have he2 : i0 + 1 + 1 * (g0 - i0 - 1) = g0 := by omega
      rw [he2]
      have he3 : g0 - (i0 + 1) = g0 - i0 - 1 := by omega
      rw [he3]
    · simp only
      rw [hdl]
      have hc : (fun r => r + 1) = (fun r => 1 + r) := by
        funext r
        omega
      rw [hc, List.map_add_range']
      have he3 : g0 - (i0 + 1) = g0 - i0 - 1 := by omega
      have he4 : 1 + (i0 + 1) = i0 + 2 := by omega
      rw [he3, he4]
  · intro dt y idx d
    have hA : ∀ (r c : Nat), 6 ≤ r →
        (([1, 3, 5].zip [hdrRow g 1, hdrRow g 3, hdrRow g 5]).flatMap
          (fun rv => rv.2.enum.map (fun jv => (rv.1, blockBase idx + jv.1, jv.2)))).filter
          (fun w => w.1 == r && w.2.1 == c) = [] := by
      intro r c hr
      apply filter_rowcol_nil_of_rows
      intro w hw
      rcases List.mem_flatMap.mp hw with ⟨rv, hrv, hw2⟩
      rcases List.mem_map.mp hw2 with ⟨jv, _, hweq⟩
      have hr1 : rv.1 ∈ [1, 3, 5] := by
        have := (List.of_mem_zip hrv).1
        simpa using this
      rw [← hweq]
      simp only
      intro hcon
      subst hcon
      simp only [List.mem_cons, List.not_mem_nil, or_false] at hr1
      omega
    have hB : ∀ (r c : Nat), 6 ≤ r →
        ([(2, blockBase idx, Cell.str (shortLabel d ++ " - " ++ shortLabel d)),
          (2, blockBase idx + 1, Cell.str "Custom"),
          (2, blockBase idx + 2, Cell.str "-"),
          (2, blockBase idx + 3, Cell.num y)] :
            List (Nat × Nat × Cell)).filter (fun w => w.1 == r && w.2.1 == c) = [] := by
      intro r c hr
      apply filter_rowcol_nil_of_rows
      intro w hw
      simp only [List.mem_cons, List.not_mem_nil, or_false] at hw
      rcases hw with h | h | h | h <;> subst h <;> dsimp only <;> omega
    have hC : ∀ (r c : Nat), 6 ≤ r →
        ([(4, blockBase idx, Cell.str (fullLabel d)),
          (4, blockBase idx + 1, Cell.str (fullLabel d)),
          (4, blockBase idx + 2, Cell.str dt),
          (4, blockBase idx + 3, Cell.str "USD")] :
            List (Nat × Nat × Cell)).filter (fun w => w.1 == r && w.2.1 == c) = [] := by
      intro r c hr
      apply filter_rowcol_nil_of_rows
      intro w hw
      simp only [List.mem_cons, List.not_mem_nil, or_false] at hw
      rcases hw with h | h | h | h <;> subst h <;> dsimp only <;> omega
    have hDcol : ∀ (r c : Nat), c ≠ blockBase idx + 5 →
        ((incEntityRows g).map (fun x => (x, blockBase idx + 5, Cell.date d))).filter
          (fun w => w.1 == r && w.2.1 == c) = [] := by
      intro r c hc
      apply filter_rowcol_nil_of_cols
      intro w hw
      rcases List.mem_map.mp hw with ⟨x, _, hweq⟩
      rw [← hweq]
      simp only
      omega
    have hFcol : ∀ (r c : Nat), c ≠ blockBase idx + 4 →
        ((incEntityRows g).dropLast.map
          (fun x => (x, blockBase idx + 4, Cell.str (netExpr (blockBase idx) x)))).filter
          (fun w => w.1 == r && w.2.1 == c) = [] := by
      intro r c hc
      apply filter_rowcol_nil_of_cols
      intro w hw
      rcases List.mem_map.mp hw with ⟨x, _, hweq⟩
      rw [← hweq]
      simp only
      omega
    refine ⟨?_, ?_, ?_, ?_⟩
    · intro r hr
      have hr6 : 6 ≤ r := by
        have := hlo r hr
        omega
      constructor
      · simp only [blockWrites, List.filter_append]
        rw [hA r _ hr6, hB r _ hr6, hC r _ hr6]
        rw [filter_rowcol_map_rows hnd hr]
        rw [filter_rowcol_nil_of_cols (by
          intro w hw
          simp only [List.mem_singleton] at hw
          subst hw
          dsimp only
          omega)]
        rw [hFcol r _ (by omega)]
        rw [filter_rowcol_nil_of_cols (by
          intro w hw
          simp only [List.mem_singleton] at hw
          subst hw
          dsimp only
          omega)]
        simp
      · unfold blockFormatOps
        exact List.mem_map.mpr ⟨r, hr, rfl⟩
    · intro r hr
      have hr6 : 6 ≤ r := by
        have := hdlo r hr
        omega
      simp only [blockWrites, List.filter_append]
      rw [hA r _ hr6, hB r _ hr6, hC r _ hr6]
      rw [hDcol r _ (by omega)]
      rw [filter_rowcol_nil_of_cols (by
        intro w hw
        simp only [List.mem_singleton] at hw
        subst hw
        dsimp only
        omega)]
      rw [filter_rowcol_map_rows_dep hdnd hr]
      rw [filter_rowcol_nil_of_rows (by
        intro w hw
        simp only [List.mem_singleton] at hw
        subst hw
        dsimp only
        rw [hlast]
        have := hdlo r hr
        omega)]
      simp
    · have hg6 : 6 ≤ g0 + 1 := by omega
      simp only [blockWrites, List.filter_append]
      rw [hA _ _ hg6, hB _ _ hg6, hC _ _ hg6]
      rw [hDcol _ _ (by omega)]
      rw [filter_rowcol_nil_of_cols (by
        intro w hw
        simp only [List.mem_singleton] at hw
        subst hw
        dsimp only
        omega)]
      rw [filter_rowcol_nil_of_rows (by
        intro w hw
        rcases List.mem_map.mp hw with ⟨x, hx, hweq⟩
        rw [← hweq]
        simp only
        have := hdlo x hx
        omega)]
      rw [hlast]
      rw [filter_singleton_pos (by simp)]
      simp
    · have hg6 : 6 ≤ g0 + 1 := by omega
      simp only [blockWrites, List.filter_append]
      rw [hA _ _ hg6, hB _ _ hg6, hC _ _ hg6]
      rw [hDcol _ _ (by omega)]
      rw [hlast, hheadD, hdllast]
      rw [filter_singleton_pos (by simp)]
      rw [hFcol _ _ (by omega)]
      rw [filter_rowcol_nil_of_cols (by
        intro w hw
        simp only [List.mem_singleton] at hw
        subst hw
        dsimp only
        omega)]
      simp

/-- Witness for C8: a concrete date list — on which the duplicate of
the existing block's date is appended — and a concrete block write. -/
theorem claim_C8_witness :
    List.Sorted dateLe
      (newDates [some ⟨2024, 5, 1⟩, some ⟨2024, 1, 2⟩, none] (Cell.date ⟨2024, 1, 2⟩)) ∧
    (⟨2024, 1, 2⟩ : PDate) ∈
      newDates [some ⟨2024, 5, 1⟩, some ⟨2024, 1, 2⟩, none] (Cell.date ⟨2024, 1, 2⟩) ∧
    (⟨2024, 5, 1⟩ : PDate) ∈
      newDates [some ⟨2024, 5, 1⟩, some ⟨2024, 1, 2⟩, none] (Cell.date ⟨2024, 1, 2⟩) ∧
    (blockBase 0 ≤ ((6 : Nat), blockBase 0 + 5, Cell.date (⟨2030, 6, 15⟩ : PDate)).2.1 ∧
      ((6 : Nat), blockBase 0 + 5, Cell.date (⟨2030, 6, 15⟩ : PDate)).2.1 <
        blockBase 0 + blockWidth) :=
  ⟨(claim_C8.1 [some ⟨2024, 5, 1⟩, some ⟨2024, 1, 2⟩, none] (Cell.date ⟨2024, 1, 2⟩)).1,
   claim_C8.2.2.1 [some ⟨2024, 5, 1⟩, some ⟨2024, 1, 2⟩, none] ⟨2024, 1, 2⟩ (by decide),
   (claim_C8.2.2.2.1 (newDates [some ⟨2024, 5, 1⟩, some ⟨2024, 1, 2⟩, none]
       (Cell.date ⟨2024, 1, 2⟩)) ⟨2024, 1, 1⟩ ⟨2024, 12, 31⟩ (fun _ => true)).2
     ⟨2024, 5, 1⟩ (by decide),
   claim_C8.2.2.2.2.2.2.2 gridC1 "Preferred Return" 2025 0 ⟨2030, 6, 15⟩
     (6, blockBase 0 + 5, Cell.date ⟨2030, 6, 15⟩) (by decide)⟩

/-- Witness for C10 at the `gridC7` layout (label row 4, GP row 7
0-based; entity rows 6, 7, 8 1-based with the GP row 8 included). -/
theorem claim_C10_witness :
    incEntityRows gridC7 = List.range' (4 + 2) (7 - 4) ∧
    (incEntityRows gridC7).getLastD 0 = 7 + 1 ∧
    7 + 1 ∈ incEntityRows gridC7 ∧
    (blockWrites (hdrRow gridC7 1) (hdrRow gridC7 3) (hdrRow gridC7 5) (incEntityRows gridC7)
        "Preferred Return" 2025 0 ⟨2030, 6, 15⟩).filter
        (fun w => w.1 == 8 && w.2.1 == blockBase 0 + 5) =
      [(8, blockBase 0 + 5, Cell.date ⟨2030, 6, 15⟩)] ∧
    (blockWrites (hdrRow gridC7 1) (hdrRow gridC7 3) (hdrRow gridC7 5) (incEntityRows gridC7)
        "Preferred Return" 2025 0 ⟨2030, 6, 15⟩).filter
        (fun w => w.1 == 8 && w.2.1 == blockBase 0 + 4) =
      [(8, blockBase 0 + 4, Cell.str (gpNetExpr (blockBase 0) 8))] ∧
    (blockWrites (hdrRow gridC7 1) (hdrRow gridC7 3) (hdrRow gridC7 5) (incEntityRows gridC7)
        "Preferred Return" 2025 0 ⟨2030, 6, 15⟩).filter
        (fun w => w.1 == 6 && w.2.1 == blockBase 0 + 4) =
      [(6, blockBase 0 + 4, Cell.str (netExpr (blockBase 0) 6))] ∧
    (blockWrites (hdrRow gridC7 1) (hdrRow gridC7 3) (hdrRow gridC7 5) (incEntityRows gridC7)
        "Preferred Return" 2025 0 ⟨2030, 6, 15⟩).filter
        (fun w => w.1 == 8 && w.2.1 == blockBase 0) =
      [(8, blockBase 0, Cell.str (gpSumExpr (blockBase 0) 6 7))] := by
  have h := claim_C10 gridC7 4 7 rfl rfl (by decide) (by decide)
  obtain ⟨h1, _, h3, h4, h5⟩ := h
  have h6 := h5 "Preferred Return" 2025 0 ⟨2030, 6, 15⟩
  exact ⟨h1, h3, h4, (h6.1 8 (by decide)).1, h6.2.2.1, h6.2.1 6 (by decide), h6.2.2.2⟩

/-!  The Entity Matcher (source lines 132–137):
`difflib.get_close_matches(x, target_entities, n=1, cutoff=0.6)` for each
distinct source name.  The embedding models difflib's
`SequenceMatcher` with `a` = the candidate target name (`set_seq1`) and
`b` = the source name (`set_seq2`, so the autojunk "popular" set is
computed from the source name): `ratio() = 2*M/T` where `M` is the total
size of the matching blocks of the recursive longest-match
decomposition and `T = len(a) + len(b)`; `quick_ratio()` counts
per-character multiset overlap; `real_quick_ratio()` uses the shorter
length.  `get_close_matches` keeps the candidates passing all three
checks against the cutoff and takes the maximum of the `(ratio, name)`
pairs in Python tuple order (ties broken towards the lexicographically
larger name, first occurrence winning among equals).  Python floats are
modelled as exact rationals; 0.6 is the exact `3/5`. -/

/-- The autojunk "popular" test of `SequenceMatcher.__chain_b` applied
to `b`: only for `len(b) >= 200`, characters occurring more than
`len(b)//100 + 1` times are dropped from `b2j`. -/
def popularB (b : List Char) (c : Char) : Bool :=
  decide (200 ≤ b.length) && decide (b.length / 100 + 1 < b.count c)

/-- Phase-1 match test at one position pair: characters present, equal,
and the `b` character not purged as popular (purged characters never
appear in `b2j`, so the inner dp loop never visits them). -/
def matchAt (a b : List Char) (pop : Char → Bool) (i j : Nat) : Bool :=
  match a.get? i, b.get? j with
  | some x, some y => x == y && !pop y
  | _, _ => false

/-- Length of the common (popular-purged) run ending at positions
`(i, j)`: the value `j2len[j]` holds at row `i` of the
`find_longest_match` dp, before window clamping. -/
def runEnd (a b : List Char) (pop : Char → Bool) : Nat → Nat → Nat
  | 0, j => if matchAt a b pop 0 j then 1 else 0
  | i + 1, 0 => if matchAt a b pop (i + 1) 0 then 1 else 0
  | i + 1, j + 1 =>
    if matchAt a b pop (i + 1) (j + 1) then runEnd a b pop i j + 1 else 0

/-- The dp value clamped to the search window `[alo, ·] × [blo, ·]` —
the length `k = newj2len[j]` that `find_longest_match` computes (runs
are cut at the window boundary because `j2len` rows start fresh at
`alo`/`blo`). -/
def kLen (a b : List Char) (pop : Char → Bool) (alo blo i j : Nat) : Nat :=
  min (runEnd a b pop i j) (min (i + 1 - alo) (j + 1 - blo))

/-- The best-match fold of `find_longest_match`: scan `(i, j)` in
iteration order (rows ascending, positions ascending — visiting
non-matching `j` too is harmless since their `k` is 0) and replace the
best triple on strict improvement, exactly like
`if k > bestsize: besti, bestj, bestsize = i-k+1, j-k+1, k`. -/
def flmFold (a b : List Char) (pop : Char → Bool) (alo blo : Nat)
    (pairs : List (Nat × Nat)) : Nat × Nat × Nat :=
  pairs.foldl (fun acc p =>
    let k := kLen a b pop alo blo p.1 p.2
    if acc.2.2 < k then (p.1 + 1 - k, p.2 + 1 - k, k) else acc)
    (alo, blo, 0)

/-- Character comparison for the extension loops (`a[i] == b[j]`,
in-bounds). -/
def charEqOpt (a b : List Char) (i j : Nat) : Bool :=
  match a.get? i, b.get? j with
  | some x, some y => x == y
  | _, _ => false

/-- The backward extension loop of `find_longest_match` (with
`get_close_matches` no `isjunk` is passed, so `bjunk` is empty: the
"not junk" test always passes and the later junk-extension loops never
fire). -/
def extendB (a b : List Char) (alo blo : Nat) : Nat → Nat → Nat → Nat × Nat × Nat
  | 0, bj, k => (0, bj, k)
  | bi + 1, bj, k =>
    if alo < bi + 1 ∧ blo < bj ∧ charEqOpt a b bi (bj - 1) = true then
      extendB a b alo blo bi (bj - 1) (k + 1)
    else (bi + 1, bj, k)

/-- The forward extension loop of `find_longest_match` (fuel-structured;
fuel `ahi` always suffices since each step needs `bi + k < ahi`). -/
def extendF (a b : List Char) (ahi bhi bi bj : Nat) : Nat → Nat → Nat
  | 0, k => k
  | fuel + 1, k =>
    if bi + k < ahi ∧ bj + k < bhi ∧ charEqOpt a b (bi + k) (bj + k) = true then
      extendF a b ahi bhi bi bj fuel (k + 1)
    else k

/-- `find_longest_match(alo, ahi, blo, bhi)`: dp scan for the longest
window-clamped run (first attainment in iteration order wins), then the
backward and forward extensions. -/
def findLongestMatch (a b : List Char) (pop : Char → Bool)
    (alo ahi blo bhi : Nat) : Nat × Nat × Nat :=
  let pairs := (List.range' alo (ahi - alo)).flatMap
    (fun i => (List.range' blo (bhi - blo)).map (fun j => (i, j)))
  let best := flmFold a b pop alo blo pairs
  let best2 := extendB a b alo blo best.1 best.2.1 best.2.2
  (best2.1, best2.2.1, extendF a b ahi bhi best2.1 best2.2.1 ahi best2.2.2)

/-- A positive phase-1 match test yields a common character. -/
theorem matchAt_chars {a b : List Char} {pop : Char → Bool} {i j : Nat}
    (h : matchAt a b pop i j = true) :
    ∃ c, a.get? i = some c ∧ b.get? j = some c := by
  unfold matchAt at h
  cases ha : a.get? i with
  | none => rw [ha] at h; cases h
  | some x =>
    cases hb : b.get? j with
    | none => rw [ha, hb] at h; cases h
    | some y =>
      rw [ha, hb] at h
      simp only [Bool.and_eq_true, beq_iff_eq] at h
      exact ⟨y, by rw [h.1], rfl⟩

/-- A positive extension-loop comparison yields a common character. -/
theorem charEqOpt_chars {a b : List Char} {i j : Nat}
    (h : charEqOpt a b i j = true) :
    ∃ c, a.get? i = some c ∧ b.get? j = some c := by
  unfold charEqOpt at h
  cases ha : a.get? i with
  | none => rw [ha] at h; cases h
  | some x =>
    cases hb : b.get? j with
    | none => rw [ha, hb] at h; cases h
    | some y =>
      rw [ha, hb] at h
      simp only [beq_iff_eq] at h
      exact ⟨y, by rw [h], rfl⟩

/-- Every position of a dp run is a genuine character match. -/
theorem runEnd_chars {a b : List Char} {pop : Char → Bool} :
    ∀ (i j t : Nat), t < runEnd a b pop i j →
      ∃ c, a.get? (i - t) = some c ∧ b.get? (j - t) = some c := by
  intro i
  induction i with
  | zero =>
    intro j t ht
    by_cases hm : matchAt a b pop 0 j = true
    · rw [runEnd, if_pos hm] at ht
      have ht0 : t = 0 := by omega
      subst ht0
      simpa using matchAt_chars hm
    · rw [runEnd, if_neg hm] at ht
      omega
  | succ i ih =>
    intro j t ht
    cases j with
    | zero =>
      by_cases hm : matchAt a b pop (i + 1) 0 = true
      · rw [runEnd, if_pos hm] at ht
        have ht0 : t = 0 := by omega
        subst ht0
        simpa using matchAt_chars hm
      · rw [runEnd, if_neg hm] at ht
        omega
    | succ j =>
      by_cases hm : matchAt a b pop (i + 1) (j + 1) = true
      · rw [runEnd, if_pos hm] at ht
        cases t with
        | zero => simpa using matchAt_chars hm
        | succ t =>
          have := ih j t (by omega)
          simpa using this
      · rw [runEnd, if_neg hm] at ht
        omega

/-- Validity of a candidate match `(i, j, k)` for the window
`[alo, ahi) × [blo, bhi)`: in-window, in-bounds, and genuinely matching
character by character. -/
def MatchOK (a b : List Char) (alo ahi blo bhi i j k : Nat) : Prop :=
  alo ≤ i ∧ blo ≤ j ∧ i + k ≤ ahi ∧ j + k ≤ bhi ∧
  ∀ t, t < k → ∃ c, a.get? (i + t) = some c ∧ b.get? (j + t) = some c

/-- The best-match fold preserves validity. -/
theorem flmFold_ok {a b : List Char} {pop : Char → Bool} {alo ahi blo bhi : Nat} :
    ∀ (pairs : List (Nat × Nat)) (acc : Nat × Nat × Nat),
      (∀ p ∈ pairs, p.1 < ahi ∧ p.2 < bhi) →
      MatchOK a b alo ahi blo bhi acc.1 acc.2.1 acc.2.2 →
      MatchOK a b alo ahi blo bhi
        (pairs.foldl (fun acc p =>
          let k := kLen a b pop alo blo p.1 p.2
          if acc.2.2 < k then (p.1 + 1 - k, p.2 + 1 - k, k) else acc) acc).1
        (pairs.foldl (fun acc p =>
          let k := kLen a b pop alo blo p.1 p.2
          if acc.2.2 < k then (p.1 + 1 - k, p.2 + 1 - k, k) else acc) acc).2.1
        (pairs.foldl (fun acc p =>
          let k := kLen a b pop alo blo p.1 p.2
          if acc.2.2 < k then (p.1 + 1 - k, p.2 + 1 - k, k) else acc) acc).2.2 := by
  intro pairs
  induction pairs with
  | nil => intro acc _ hacc; exact hacc
  | cons p pairs ih =>
    intro acc hmem hacc
    simp only [List.foldl_cons]
    refine ih _ (fun q hq => hmem q (List.mem_cons_of_mem _ hq)) ?_
    by_cases hlt : acc.2.2 < kLen a b pop alo blo p.1 p.2
    · simp only [if_pos hlt]
      have hp := hmem p (List.mem_cons_self _ _)
      have hk1 : kLen a b pop alo blo p.1 p.2 ≤ p.1 + 1 - alo := by
        unfold kLen
        omega
      have hk2 : kLen a b pop alo blo p.1 p.2 ≤ p.2 + 1 - blo := by
        unfold kLen
        omega
      have hkr : kLen a b pop alo blo p.1 p.2 ≤ runEnd a b pop p.1 p.2 := by
        unfold kLen
        omega
      have hkpos : 1 ≤ kLen a b pop alo blo p.1 p.2 := by omega
      show MatchOK a b alo ahi blo bhi
        (p.1 + 1 - kLen a b pop alo blo p.1 p.2)
        (p.2 + 1 - kLen a b pop alo blo p.1 p.2)
        (kLen a b pop alo blo p.1 p.2)
      refine ⟨by omega, by omega, by omega, by omega, ?_⟩
      intro t ht
      have h1 : p.1 + 1 - kLen a b pop alo blo p.1 p.2 + t =
          p.1 - (kLen a b pop alo blo p.1 p.2 - 1 - t) := by omega
      have h2 : p.2 + 1 - kLen a b pop alo blo p.1 p.2 + t =
          p.2 - (kLen a b pop alo blo p.1 p.2 - 1 - t) := by omega
      rw [h1, h2]
      exact @runEnd_chars a b pop p.1 p.2
        (kLen a b pop alo blo p.1 p.2 - 1 - t) (by omega)
    · simp only [if_neg hlt]
      exact hacc

/-- The backward extension preserves validity and the run endpoint. -/
theorem extendB_ok {a b : List Char} {alo ahi blo bhi : Nat} :
    ∀ (bi bj k : Nat),
      MatchOK a b alo ahi blo bhi bi bj k →
      MatchOK a b alo ahi blo bhi (extendB a b alo blo bi bj k).1
        (extendB a b alo blo bi bj k).2.1 (extendB a b alo blo bi bj k).2.2 ∧
      (extendB a b alo blo bi bj k).1 + (extendB a b alo blo bi bj k).2.2 = bi + k ∧
      (extendB a b alo blo bi bj k).2.1 + (extendB a b alo blo bi bj k).2.2 = bj + k := by
  intro bi
  induction bi with
  | zero =>
    intro bj k h
    exact ⟨h, rfl, rfl⟩
  | succ bi ih =>
    intro bj k h
    by_cases hc : alo < bi + 1 ∧ blo < bj ∧ charEqOpt a b bi (bj - 1) = true
    · rw [extendB, if_pos hc]
      obtain ⟨h1, h2, h3, h4, h5⟩ := h
      have hpre : MatchOK a b alo ahi blo bhi bi (bj - 1) (k + 1) := by
        refine ⟨by omega, by omega, by omega, by omega, ?_⟩
        intro t ht
        cases t with
        | zero =>
          have := charEqOpt_chars hc.2.2
          simpa using this
        | succ t =>
          have hp := h5 t (by omega)
          have e1 : bi + (t + 1) = bi + 1 + t := by omega
          have e2 : bj - 1 + (t + 1) = bj + t := by omega
          rw [e1, e2]
          exact hp
      have hih := ih (bj - 1) (k + 1) hpre
      refine ⟨hih.1, ?_, ?_⟩
      · rw [hih.2.1]
        omega
      · rw [hih.2.2]
        omega
    · rw [extendB, if_neg hc]
      exact ⟨h, rfl, rfl⟩

/-- The forward extension preserves validity of the fixed start. -/
theorem extendF_ok {a b : List Char} {alo ahi blo bhi bi bj : Nat} :
    ∀ (fuel k : Nat),
      MatchOK a b alo ahi blo bhi bi bj k →
      MatchOK a b alo ahi blo bhi bi bj (extendF a b ahi bhi bi bj fuel k) := by
  intro fuel
  induction fuel with
  | zero => intro k h; exact h
  | succ fuel ih =>
    intro k h
    by_cases hc : bi + k < ahi ∧ bj + k < bhi ∧ charEqOpt a b (bi + k) (bj + k) = true
    · rw [extendF, if_pos hc]
      apply ih
      obtain ⟨h1, h2, h3, h4, h5⟩ := h
      refine ⟨h1, h2, by omega, by omega, ?_⟩
      intro t ht
      by_cases htk : t < k
      · exact h5 t htk
      · have hteq : t = k := by omega
        subst hteq
        exact charEqOpt_chars hc.2.2
    · rw [extendF, if_neg hc]
      exact h

/-- `find_longest_match` returns a valid match of its window. -/
theorem findLongestMatch_ok {a b : List Char} {pop : Char → Bool}
    {alo ahi blo bhi : Nat} (halo : alo ≤ ahi) (hblo : blo ≤ bhi) :
    MatchOK a b alo ahi blo bhi (findLongestMatch a b pop alo ahi blo bhi).1
      (findLongestMatch a b pop alo ahi blo bhi).2.1
      (findLongestMatch a b pop alo ahi blo bhi).2.2 := by
  have hpairs : ∀ p ∈ (List.range' alo (ahi - alo)).flatMap
      (fun i => (List.range' blo (bhi - blo)).map (fun j => (i, j))),
      p.1 < ahi ∧ p.2 < bhi := by
    intro p hp
    rcases List.mem_flatMap.mp hp with ⟨i, hi, hp2⟩
    rcases List.mem_map.mp hp2 with ⟨j, hj, hpe⟩
    rcases List.mem_range'.mp hi with ⟨i2, hi2, hieq⟩
    rcases List.mem_range'.mp hj with ⟨j2, hj2, hjeq⟩
    rw [← hpe]
    constructor
    · show i < ahi
      omega
    · show j < bhi
      omega
  have hinit : MatchOK a b alo ahi blo bhi (alo, blo, 0).1 (alo, blo, 0).2.1
      (alo, blo, 0).2.2 := by
    refine ⟨le_refl _, le_refl _, ?_, ?_, ?_⟩
    · show alo + 0 ≤ ahi
      omega
    · show blo + 0 ≤ bhi
      omega
    · intro t ht
      have ht0 : t < 0 := ht
      omega
  have hfold := @flmFold_ok a b pop alo ahi blo bhi
    ((List.range' alo (ahi - alo)).flatMap
      (fun i => (List.range' blo (bhi - blo)).map (fun j => (i, j))))
    (alo, blo, 0) hpairs hinit
  have hB := extendB_ok _ _ _ hfold
  exact extendF_ok _ _ hB.1

/-- The sub-sequence of `l` from position `lo`, of length `len`
(clamped at the end of the list). -/
def seg (l : List Char) (lo len : Nat) : List Char := (l.drop lo).take len

/-- The matched characters (taken from the `a` side) of the recursive
`get_matching_blocks` decomposition of the window
`[alo, ahi) × [blo, bhi)`: the longest match's characters plus the
recursive matches of the two remaining sub-windows.  Fueled structural
recursion: each level strictly shrinks `(ahi - alo) + (bhi - blo)`, so
fuel `a.length + b.length + 1` (as used by `seqMatchedChars`) always
suffices; the window guard is always true along difflib's own
recursion. -/
def matchChars (a b : List Char) (pop : Char → Bool) :
    Nat → Nat → Nat → Nat → Nat → Multiset Char
  | 0, _, _, _, _ => 0
  | fuel + 1, alo, ahi, blo, bhi =>
    if alo ≤ ahi ∧ blo ≤ bhi then
      let m := findLongestMatch a b pop alo ahi blo bhi
      if m.2.2 = 0 then 0
      else (seg a m.1 m.2.2 : Multiset Char) +
        matchChars a b pop fuel alo m.1 blo m.2.1 +
        matchChars a b pop fuel (m.1 + m.2.2) ahi (m.2.1 + m.2.2) bhi
    else 0

/-- The multiset of matched characters of two full strings (`M` of
difflib's `ratio` is its cardinality). -/
def seqMatchedChars (a b : List Char) : Multiset Char :=
  matchChars a b (popularB b) (a.length + b.length + 1) 0 a.length 0 b.length

/-- Splitting a sub-sequence at an interior point. -/
theorem seg_append (l : List Char) (lo n1 n2 : Nat) :
    seg l lo (n1 + n2) = seg l lo n1 ++ seg l (lo + n1) n2 := by
  unfold seg
  rw [List.take_add, List.drop_drop]

/-- The whole list as a sub-sequence. -/
theorem seg_full (l : List Char) : seg l 0 l.length = l := by
  unfold seg
  simp

/-- Position-wise equal ranges have equal sub-sequences. -/
theorem seg_eq_of_chars {a b : List Char} :
    ∀ (k i j : Nat),
      (∀ t, t < k → ∃ c, a.get? (i + t) = some c ∧ b.get? (j + t) = some c) →
      seg a i k = seg b j k := by
  intro k
  induction k with
  | zero => intro i j _; rfl
  | succ k ih =>
    intro i j h
    obtain ⟨c, hca, hcb⟩ := h 0 (by omega)
    rw [Nat.add_zero] at hca hcb
    obtain ⟨hia, hga⟩ := List.get?_eq_some.mp hca
    obtain ⟨hib, hgb⟩ := List.get?_eq_some.mp hcb
    have hgia : a[i] = c := by
      have h2 : a[i]? = some c := by
        rw [← List.get?_eq_getElem?]
        exact hca
      rw [List.getElem?_eq_getElem hia] at h2
      simpa using h2
    have hgib : b[j] = c := by
      have h2 : b[j]? = some c := by
        rw [← List.get?_eq_getElem?]
        exact hcb
      rw [List.getElem?_eq_getElem hib] at h2
      simpa using h2
    have hda : a.drop i = c :: a.drop (i + 1) := by
      rw [List.drop_eq_getElem_cons hia, hgia]
    have hdb : b.drop j = c :: b.drop (j + 1) := by
      rw [List.drop_eq_getElem_cons hib, hgib]
    unfold seg
    rw [hda, hdb]
    simp only [List.take_succ_cons]
    rw [show (a.drop (i + 1)).take k = seg a (i + 1) k from rfl,
        show (b.drop (j + 1)).take k = seg b (j + 1) k from rfl]
    rw [ih (i + 1) (j + 1) (fun t ht => by
      have := h (t + 1) (by omega)
      have e1 : i + (t + 1) = i + 1 + t := by omega
      have e2 : j + (t + 1) = j + 1 + t := by omega
      rw [e1, e2] at this
      exact this)]

/-- The matched characters of any window form a sub-multiset of both
the window's `a`-side and its `b`-side characters. -/
theorem matchChars_le {a b : List Char} {pop : Char → Bool} :
    ∀ (fuel alo ahi blo bhi : Nat), ahi ≤ a.length → bhi ≤ b.length →
      matchChars a b pop fuel alo ahi blo bhi ≤ (seg a alo (ahi - alo) : Multiset Char) ∧
      matchChars a b pop fuel alo ahi blo bhi ≤ (seg b blo (bhi - blo) : Multiset Char) := by
  intro fuel
  induction fuel with
  | zero =>
    intro alo ahi blo bhi _ _
    exact ⟨Multiset.zero_le _, Multiset.zero_le _⟩
  | succ fuel ih =>
    intro alo ahi blo bhi ha hb
    by_cases hw : alo ≤ ahi ∧ blo ≤ bhi
    · rw [matchChars, if_pos hw]
      by_cases hk : (findLongestMatch a b pop alo ahi blo bhi).2.2 = 0
      · rw [if_pos hk]
        exact ⟨Multiset.zero_le _, Multiset.zero_le _⟩
      · rw [if_neg hk]
        obtain ⟨h1, h2, h3, h4, h5⟩ := @findLongestMatch_ok a b pop alo ahi blo bhi hw.1 hw.2
        set m := findLongestMatch a b pop alo ahi blo bhi with hm
        have hIH1 := ih alo m.1 blo m.2.1 (by omega) (by omega)
        have hIH2 := ih (m.1 + m.2.2) ahi (m.2.1 + m.2.2) bhi ha hb
        have hsega : (seg a alo (ahi - alo) : Multiset Char) =
            (seg a alo (m.1 - alo) : Multiset Char) + (seg a m.1 m.2.2 : Multiset Char) +
            (seg a (m.1 + m.2.2) (ahi - (m.1 + m.2.2)) : Multiset Char) := by
          have hsplit : ahi - alo = (m.1 - alo) + (m.2.2 + (ahi - (m.1 + m.2.2))) := by omega
          rw [hsplit, seg_append, seg_append]
          have e1 : alo + (m.1 - alo) = m.1 := by omega
          rw [e1, Multiset.coe_add, Multiset.coe_add, List.append_assoc]
        have hsegb : (seg b blo (bhi - blo) : Multiset Char) =
            (seg b blo (m.2.1 - blo) : Multiset Char) + (seg b m.2.1 m.2.2 : Multiset Char) +
            (seg b (m.2.1 + m.2.2) (bhi - (m.2.1 + m.2.2)) : Multiset Char) := by
          have hsplit : bhi - blo = (m.2.1 - blo) + (m.2.2 + (bhi - (m.2.1 + m.2.2))) := by omega
          rw [hsplit, seg_append, seg_append]
          have e1 : blo + (m.2.1 - blo) = m.2.1 := by omega
          rw [e1, Multiset.coe_add, Multiset.coe_add, List.append_assoc]
        have hmid : seg a m.1 m.2.2 = seg b m.2.1 m.2.2 := seg_eq_of_chars _ _ _ h5
        constructor
        · rw [hsega]
          have hstep : (seg a m.1 m.2.2 : Multiset Char) +
              matchChars a b pop fuel alo m.1 blo m.2.1 +
              matchChars a b pop fuel (m.1 + m.2.2) ahi (m.2.1 + m.2.2) bhi ≤
              (seg a m.1 m.2.2 : Multiset Char) + (seg a alo (m.1 - alo) : Multiset Char) +
              (seg a (m.1 + m.2.2) (ahi - (m.1 + m.2.2)) : Multiset Char) :=
            add_le_add (add_le_add (le_refl _) hIH1.1) hIH2.1
          calc (seg a m.1 m.2.2 : Multiset Char) +
              matchChars a b pop fuel alo m.1 blo m.2.1 +
              matchChars a b pop fuel (m.1 + m.2.2) ahi (m.2.1 + m.2.2) bhi ≤
              (seg a m.1 m.2.2 : Multiset Char) + (seg a alo (m.1 - alo) : Multiset Char) +
              (seg a (m.1 + m.2.2) (ahi - (m.1 + m.2.2)) : Multiset Char) := hstep
            _ = (seg a alo (m.1 - alo) : Multiset Char) + (seg a m.1 m.2.2 : Multiset Char) +
              (seg a (m.1 + m.2.2) (ahi - (m.1 + m.2.2)) : Multiset Char) := by
              rw [add_comm (seg a m.1 m.2.2 : Multiset Char)
                (seg a alo (m.1 - alo) : Multiset Char)]
        · rw [hsegb]
          have hstep : (seg a m.1 m.2.2 : Multiset Char) +
              matchChars a b pop fuel alo m.1 blo m.2.1 +
              matchChars a b pop fuel (m.1 + m.2.2) ahi (m.2.1 + m.2.2) bhi ≤
              (seg a m.1 m.2.2 : Multiset Char) + (seg b blo (m.2.1 - blo) : Multiset Char) +
              (seg b (m.2.1 + m.2.2) (bhi - (m.2.1 + m.2.2)) : Multiset Char) :=
            add_le_add (add_le_add (le_refl _) hIH1.2) hIH2.2
          calc (seg a m.1 m.2.2 : Multiset Char) +
              matchChars a b pop fuel alo m.1 blo m.2.1 +
              matchChars a b pop fuel (m.1 + m.2.2) ahi (m.2.1 + m.2.2) bhi ≤
              (seg a m.1 m.2.2 : Multiset Char) + (seg b blo (m.2.1 - blo) : Multiset Char) +
              (seg b (m.2.1 + m.2.2) (bhi - (m.2.1 + m.2.2)) : Multiset Char) := hstep
            _ = (seg b blo (m.2.1 - blo) : Multiset Char) + (seg b m.2.1 m.2.2 : Multiset Char) +
              (seg b (m.2.1 + m.2.2) (bhi - (m.2.1 + m.2.2)) : Multiset Char) := by
              rw [hmid, add_comm (seg b m.2.1 m.2.2 : Multiset Char)
                (seg b blo (m.2.1 - blo) : Multiset Char)]
    · rw [matchChars, if_neg hw]
      exact ⟨Multiset.zero_le _, Multiset.zero_le _⟩

/-- The full-string matched characters are a sub-multiset of `a`. -/
theorem seqMatchedChars_le_a (a b : List Char) :
    seqMatchedChars a b ≤ (a : Multiset Char) := by
  have h := (@matchChars_le a b (popularB b)
    (a.length + b.length + 1) 0 a.length 0 b.length (le_refl _) (le_refl _)).1
  rw [Nat.sub_zero, seg_full] at h
  exact h

/-- The full-string matched characters are a sub-multiset of `b`. -/
theorem seqMatchedChars_le_b (a b : List Char) :
    seqMatchedChars a b ≤ (b : Multiset Char) := by
  have h := (@matchChars_le a b (popularB b)
    (a.length + b.length + 1) 0 a.length 0 b.length (le_refl _) (le_refl _)).2
  rw [Nat.sub_zero, seg_full] at h
  exact h

/-- difflib's `_calculate_ratio(matches, length)`: `2.0*matches/length`,
or 1.0 for two empty sequences.  `Rat.divInt` is exact rational
division (`Rat.divInt_eq_div`), standing for the Python float
quotient. -/
def calcRatioQ (mtc length : Nat) : ℚ :=
  if length = 0 then 1 else Rat.divInt (2 * mtc) length

/-- `SequenceMatcher(None, x, word).ratio()`: `a` is the candidate `x`,
`b` the source name `word`. -/
def seqRatioQ (x word : String) : ℚ :=
  calcRatioQ (Multiset.card (seqMatchedChars x.data word.data))
    (x.data.length + word.data.length)

/-- The `matches` count of `quick_ratio()`: its `avail` loop counts,
for each character, the overlap `min(count in a, count in b)`. -/
def quickMatches (a b : List Char) : Nat :=
  (a.dedup.map (fun c => min (a.count c) (b.count c))).sum

/-- `quick_ratio()` of the candidate/source pair. -/
def quickRatioQ (x word : String) : ℚ :=
  calcRatioQ (quickMatches x.data word.data) (x.data.length + word.data.length)

/-- `real_quick_ratio()`: `2*min(la, lb)/(la+lb)`. -/
def realQuickRatioQ (x word : String) : ℚ :=
  calcRatioQ (min x.data.length word.data.length) (x.data.length + word.data.length)

/-- Sums over a list's finset of distinct characters equal sums over
its dedup. -/
theorem toFinset_sum_eq (a : List Char) (f : Char → Nat) :
    ∑ c ∈ a.toFinset, f c = (a.dedup.map f).sum := by
  rw [Finset.sum_eq_multiset_sum]
  have hval : a.toFinset.val = (↑a.dedup : Multiset Char) := by
    simp [List.toFinset, Multiset.toFinset]
  rw [hval, Multiset.map_coe, Multiset.sum_coe]

/-- A common sub-multiset of two character lists is no larger than
their per-character overlap count. -/
theorem card_le_quickMatches {a b : List Char} {m : Multiset Char}
    (hma : m ≤ (a : Multiset Char)) (hmb : m ≤ (b : Multiset Char)) :
    Multiset.card m ≤ quickMatches a b := by
  have hsub : m.toFinset ⊆ ((a : Multiset Char)).toFinset := by
    intro c hc
    rw [Multiset.mem_toFinset] at hc ⊢
    exact Multiset.mem_of_le hma hc
  have hfin : ((a : Multiset Char)).toFinset = a.toFinset := rfl
  calc Multiset.card m = ∑ c ∈ m.toFinset, m.count c :=
        (Multiset.toFinset_sum_count_eq m).symm
    _ ≤ ∑ c ∈ a.toFinset, m.count c := by
        rw [← hfin]
        exact Finset.sum_le_sum_of_subset hsub
    _ ≤ ∑ c ∈ a.toFinset, min (a.count c) (b.count c) := by
        apply Finset.sum_le_sum
        intro c _
        have h1 : m.count c ≤ a.count c := by
          have := Multiset.count_le_of_le c hma
          rwa [Multiset.coe_count] at this
        have h2 : m.count c ≤ b.count c := by
          have := Multiset.count_le_of_le c hmb
          rwa [Multiset.coe_count] at this
        omega
    _ = quickMatches a b := toFinset_sum_eq a _

/-- The distinct-character overlap sum is bounded by the length of the
first list. -/
theorem quickMatches_le_left (a b : List Char) : quickMatches a b ≤ a.length := by
  have h1 : quickMatches a b ≤ (a.dedup.map (fun c => a.count c)).sum := by
    apply List.sum_le_sum
    intro c _
    omega
  have h2 : (a.dedup.map (fun c => a.count c)).sum = a.length := by
    rw [← toFinset_sum_eq]
    have h3 := Multiset.toFinset_sum_count_eq (a : Multiset Char)
    rw [Multiset.coe_card] at h3
    calc ∑ c ∈ a.toFinset, a.count c
        = ∑ c ∈ a.toFinset, ((a : Multiset Char)).count c := by
          apply Finset.sum_congr rfl
          intro c _
          rw [Multiset.coe_count]
      _ = a.length := h3
  omega

/-- The distinct-character overlap sum is bounded by the length of the
second list. -/
theorem quickMatches_le_right (a b : List Char) : quickMatches a b ≤ b.length := by
  have h1 : quickMatches a b ≤ ∑ c ∈ a.toFinset, b.count c := by
    rw [toFinset_sum_eq]
    apply List.sum_le_sum
    intro c _
    omega
  have h2 : ∑ c ∈ a.toFinset, b.count c ≤ ∑ c ∈ a.toFinset ∪ b.toFinset, b.count c :=
    Finset.sum_le_sum_of_subset Finset.subset_union_left
  have h3 : ∑ c ∈ a.toFinset ∪ b.toFinset, b.count c = ∑ c ∈ b.toFinset, b.count c := by
    symm
    apply Finset.sum_subset Finset.subset_union_right
    intro c _ hc
    rw [List.mem_toFinset] at hc
    exact List.count_eq_zero.mpr hc
  have h4 : ∑ c ∈ b.toFinset, b.count c = b.length := by
    have h5 := Multiset.toFinset_sum_count_eq (b : Multiset Char)
    rw [Multiset.coe_card] at h5
    calc ∑ c ∈ b.toFinset, b.count c
        = ∑ c ∈ b.toFinset, ((b : Multiset Char)).count c := by
          apply Finset.sum_congr rfl
          intro c _
          rw [Multiset.coe_count]
      _ = b.length := h5
  omega

/-- `calcRatioQ` is monotone in the match count. -/
theorem calcRatioQ_mono {m1 m2 T : Nat} (h : m1 ≤ m2) :
    calcRatioQ m1 T ≤ calcRatioQ m2 T := by
  unfold calcRatioQ
  by_cases hT : T = 0
  · rw [if_pos hT, if_pos hT]
  · rw [if_neg hT, if_neg hT, Rat.divInt_eq_div, Rat.divInt_eq_div]
    have hTpos : (0 : ℚ) < (T : ℤ) := by
      have : 0 < T := Nat.pos_of_ne_zero hT
      exact_mod_cast this
    rw [div_le_div_iff_of_pos_right hTpos]
    have : (2 * m1 : ℤ) ≤ (2 * m2 : ℤ) := by omega
    exact_mod_cast this

/-- `ratio() <= quick_ratio()`. -/
theorem seqRatioQ_le_quickRatioQ (x word : String) :
    seqRatioQ x word ≤ quickRatioQ x word :=
  calcRatioQ_mono
    (card_le_quickMatches (seqMatchedChars_le_a _ _) (seqMatchedChars_le_b _ _))

/-- `quick_ratio() <= real_quick_ratio()`. -/
theorem quickRatioQ_le_realQuickRatioQ (x word : String) :
    quickRatioQ x word ≤ realQuickRatioQ x word :=
  calcRatioQ_mono
    (le_min (quickMatches_le_left _ _) (quickMatches_le_right _ _))

/-- Python string `<` on two character lists: lexicographic by Unicode
code point. -/
def charListLt : List Char → List Char → Bool
  | _, [] => false
  | [], _ :: _ => true
  | x :: xs, y :: ys => if x = y then charListLt xs ys else decide (x < y)

/-- Python `x < y` on strings. -/
def strLtB (x y : String) : Bool := charListLt x.data y.data

/-- The three cutoff checks of `get_close_matches` (short-circuit
conjunction, `real_quick_ratio` first). -/
def passesCutoff (x word : String) (cutoff : ℚ) : Bool :=
  decide (cutoff ≤ realQuickRatioQ x word) && decide (cutoff ≤ quickRatioQ x word) &&
    decide (cutoff ≤ seqRatioQ x word)

/-- Python tuple comparison `(ratio(x), x) > (ratio(y), y)`. -/
def tupleGt (word x y : String) : Bool :=
  decide (seqRatioQ y word < seqRatioQ x word) ||
    (decide (seqRatioQ y word = seqRatioQ x word) && strLtB y x)

/-- `heapq.nlargest(1, result)` ≡ `max(result)`: keep the first
tuple-maximal element, replacing only on strict tuple increase. -/
def maxCand (word : String) (l : List String) : Option String :=
  l.foldl (fun acc x =>
    match acc with
    | none => some x
    | some y => if tupleGt word x y then some x else some y) none

/-- `difflib.get_close_matches(word, possibilities, n=1, cutoff)`,
returning the (at most one) best match. -/
def getCloseMatches1 (word : String) (possibilities : List String) (cutoff : ℚ) :
    Option String :=
  maxCand word (possibilities.filter (fun x => passesCutoff x word cutoff))

/-- The cutoff 0.6 of the app (line 135), as the exact rational 3/5. -/
def cutoff06 : ℚ := Rat.divInt 3 5

/-- One suggestion for one source name (line 134–136):
`(difflib.get_close_matches(x, target_entities, n=1, cutoff=0.6) or [""])[0]`. -/
def suggest1 (word : String) (targets : List String) : String :=
  (getCloseMatches1 word targets cutoff06).getD ""

/-- The `suggestion_1` column: one independent suggestion per distinct
source name. -/
def entitySuggestions (srcNames targets : List String) : List String :=
  srcNames.map (fun x => suggest1 x targets)

/-- A positive tuple comparison implies a ratio bound. -/
theorem tupleGt_ratio_le {word x y : String} (h : tupleGt word x y = true) :
    seqRatioQ y word ≤ seqRatioQ x word := by
  unfold tupleGt at h
  simp only [Bool.or_eq_true, Bool.and_eq_true, decide_eq_true_eq] at h
  rcases h with h | h
  · exact le_of_lt h
  · exact le_of_eq h.1

/-- A negative tuple comparison implies the reverse ratio bound. -/
theorem tupleGt_false_ratio_le {word x y : String} (h : tupleGt word x y = false) :
    seqRatioQ x word ≤ seqRatioQ y word := by
  unfold tupleGt at h
  simp only [Bool.or_eq_false_iff, Bool.and_eq_false_iff, decide_eq_false_iff_not] at h
  exact le_of_not_lt h.1

/-- The max-fold keeps a member whose ratio dominates the accumulator
and every scanned element. -/
theorem maxCand_spec (word : String) :
    ∀ (l : List String) (acc : Option String) (s : String),
      l.foldl (fun acc x =>
        match acc with
        | none => some x
        | some y => if tupleGt word x y then some x else some y) acc = some s →
      (acc = some s ∨ s ∈ l) ∧
      (∀ y, acc = some y → seqRatioQ y word ≤ seqRatioQ s word) ∧
      (∀ x ∈ l, seqRatioQ x word ≤ seqRatioQ s word) := by
  intro l
  induction l with
  | nil =>
    intro acc s h
    simp only [List.foldl_nil] at h
    refine ⟨Or.inl h, ?_, ?_⟩
    · intro y hy
      rw [hy] at h
      injection h with h
      rw [h]
    · intro x hx
      cases hx
  | cons x l ih =>
    intro acc s h
    simp only [List.foldl_cons] at h
    cases acc with
    | none =>
      have hih := ih (some x) s h
      refine ⟨?_, ?_, ?_⟩
      · rcases hih.1 with he | hm
        · injection he with he
          exact Or.inr (he ▸ List.mem_cons_self _ _)
        · exact Or.inr (List.mem_cons_of_mem _ hm)
      · intro y hy
        cases hy
      · intro z hz
        rcases List.mem_cons.mp hz with hzx | hzl
        · subst hzx
          exact hih.2.1 z rfl
        · exact hih.2.2 z hzl
    | some y =>
      dsimp only at h
      by_cases hgt : tupleGt word x y = true
      · rw [if_pos hgt] at h
        have hih := ih (some x) s h
        refine ⟨?_, ?_, ?_⟩
        · rcases hih.1 with he | hm
          · injection he with he
            exact Or.inr (he ▸ List.mem_cons_self _ _)
          · exact Or.inr (List.mem_cons_of_mem _ hm)
        · intro y2 hy2
          injection hy2 with hy2
          subst hy2
          exact le_trans (tupleGt_ratio_le hgt) (hih.2.1 x rfl)
        · intro z hz
          rcases List.mem_cons.mp hz with hzx | hzl
          · subst hzx
            exact hih.2.1 z rfl
          · exact hih.2.2 z hzl
      · rw [if_neg hgt] at h
        have hih := ih (some y) s h
        have hgtf : tupleGt word x y = false := by
          revert hgt
          cases tupleGt word x y <;> simp
        refine ⟨?_, ?_, ?_⟩
        · rcases hih.1 with he | hm
          · exact Or.inl he
          · exact Or.inr (List.mem_cons_of_mem _ hm)
        · intro y2 hy2
          injection hy2 with hy2
          subst hy2
          exact hih.2.1 y rfl
        · intro z hz
          rcases List.mem_cons.mp hz with hzx | hzl
          · subst hzx
            exact le_trans (tupleGt_false_ratio_le hgtf) (hih.2.1 y rfl)
          · exact hih.2.2 z hzl

/-- C5 (confirmed): the Entity Matcher produces exactly one suggestion
per source name (independently of the rest of the list: the map applies
`suggest1` to each name); a non-empty suggestion comes from the target
list with similarity ratio at least 0.6 to the source name; and a
non-empty suggestion's ratio is maximal among all target names (any
target failing the cutoff or the quick-ratio pre-checks has a ratio
strictly below the cutoff, by `ratio ≤ quick_ratio ≤
real_quick_ratio`). -/
theorem claim_C5 (srcNames targets : List String) (word : String) :
    (entitySuggestions srcNames targets).length = srcNames.length ∧
    (∀ i : Nat, (entitySuggestions srcNames targets)[i]? =
      (srcNames[i]?).map (fun x => suggest1 x targets)) ∧
    (suggest1 word targets ≠ "" →
      suggest1 word targets ∈ targets ∧
      cutoff06 ≤ seqRatioQ (suggest1 word targets) word ∧
      ∀ t ∈ targets, seqRatioQ t word ≤ seqRatioQ (suggest1 word targets) word) := by
  refine ⟨List.length_map _ _, ?_, ?_⟩
  · intro i
    unfold entitySuggestions
    rw [List.getElem?_map]
  · intro hne
    unfold suggest1 at hne ⊢
    cases hg : getCloseMatches1 word targets cutoff06 with
    | none =>
      rw [hg] at hne
      simp at hne
    | some s =>
      rw [hg] at hne
      simp only [Option.getD_some] at hne ⊢
      unfold getCloseMatches1 at hg
      have hspec := maxCand_spec word
        (targets.filter (fun x => passesCutoff x word cutoff06)) none s hg
      have hmem : s ∈ targets.filter (fun x => passesCutoff x word cutoff06) := by
        rcases hspec.1 with he | hm
        · cases he
        · exact hm
      have hsf := List.mem_filter.mp hmem
      have hpass := hsf.2
      unfold passesCutoff at hpass
      simp only [Bool.and_eq_true, decide_eq_true_eq] at hpass
      refine ⟨hsf.1, hpass.2, ?_⟩
      intro t ht
      by_cases hp : passesCutoff t word cutoff06 = true
      · exact hspec.2.2 t (List.mem_filter.mpr ⟨ht, hp⟩)
      · have hlt : seqRatioQ t word < cutoff06 := by
          unfold passesCutoff at hp
          simp only [Bool.and_eq_true, decide_eq_true_eq, not_and] at hp
          by_cases h1 : cutoff06 ≤ realQuickRatioQ t word
          · by_cases h2 : cutoff06 ≤ quickRatioQ t word
            · have h3 := hp ⟨h1, h2⟩
              exact lt_of_not_le h3
            · have := lt_of_not_le h2
              exact lt_of_le_of_lt (seqRatioQ_le_quickRatioQ t word) this
          · have := lt_of_not_le h1
            exact lt_of_le_of_lt
              (le_trans (seqRatioQ_le_quickRatioQ t word)
                (quickRatioQ_le_realQuickRatioQ t word)) this
        exact le_trans (le_of_lt hlt) hpass.2

set_option maxRecDepth 16384 in
/-- Witness for C5 at word "ab" and target list ["ab"]: the suggestion
is non-empty, hence by `claim_C5` a member of the target list with
similarity ratio at least the 0.6 cutoff. -/
theorem claim_C5_witness :
    suggest1 "ab" ["ab"] ≠ "" ∧ suggest1 "ab" ["ab"] ∈ ["ab"] ∧
      cutoff06 ≤ seqRatioQ (suggest1 "ab" ["ab"]) "ab" :=
  ⟨by decide, ((claim_C5 ["ab"] ["ab"] "ab").2.2 (by decide)).1,
    ((claim_C5 ["ab"] ["ab"] "ab").2.2 (by decide)).2.1⟩

end ExcelMerge
